import Mathlib

/-!
Verification of the view stringify/parse codec (ckeditor5 dev-utils view module).

Strings from the source are modelled as `List Char` (`Str`); all machine
integers are exact (`Nat`/`Int`).  The typed view tree, the generic DOM tree,
the tag grammar, the bracket scanner, the range builder and the stringifier
are translated from the source file.  The external `HtmlDataProcessor.toDom`
collaborator (raw markup to generic tree) is not part of the repository and is
modelled from the spec.
-/

set_option linter.unusedVariables false

set_option linter.unreachableTactic false

set_option linter.unusedTactic false

/-- Strings of the source are modelled as lists of characters. -/
abbrev Str := List Char

/-- Token alphabet, from the source constants. -/
def ELEMENT_RANGE_START_TOKEN : Char := '['

/-- Element range end token. -/
def ELEMENT_RANGE_END_TOKEN : Char := ']'

/-- Text range start token. -/
def TEXT_RANGE_START_TOKEN : Char := '{'

/-- Text range end token. -/
def TEXT_RANGE_END_TOKEN : Char := '}'

/-- Error taxonomy of the codec (spec section 7).  The JS source throws
generic `Error`s; each constructor corresponds to one family of throw sites.
`typeError` models a JS `TypeError` crash (e.g. member access on `null`). -/
inductive PErr where
  | tagGrammar (raw : Str)
  | markerPlacement
  | unbalanced
  | rangeCountMismatch
  | invalidRangeOrder
  | typeError
  | externalParse
deriving DecidableEq, Repr

/-- Kind of a typed element: plain `Element`, `ContainerElement` or
`AttributeElement`. -/
inductive EKind where
  | plain
  | container
  | attribute
deriving DecidableEq, Repr

/-- The typed view tree: `DocumentFragment`, `Element` (with kind, name,
priority, attributes, children) and `Text`.  `priority` is meaningful only
for the attribute kind; the public constructors set it to
`DEFAULT_PRIORITY` otherwise. -/
inductive ViewNode where
  | text (data : Str)
  | element (kind : EKind) (name : Str) (priority : Int)
      (attrs : List (Str × Str)) (children : List ViewNode)
  | fragment (children : List ViewNode)

mutual

/-- Decidable equality on typed view nodes. -/
def ViewNode.decEq : (a b : ViewNode) → Decidable (a = b)
  | .text d1, .text d2 =>
      if h : d1 = d2 then .isTrue (by rw [h]) else .isFalse (fun hh => h (ViewNode.text.inj hh))
  | .text _, .element .. => .isFalse (fun h => ViewNode.noConfusion h)
  | .text _, .fragment _ => .isFalse (fun h => ViewNode.noConfusion h)
  | .element .., .text _ => .isFalse (fun h => ViewNode.noConfusion h)
  | .element .., .fragment _ => .isFalse (fun h => ViewNode.noConfusion h)
  | .fragment _, .text _ => .isFalse (fun h => ViewNode.noConfusion h)
  | .fragment _, .element .. => .isFalse (fun h => ViewNode.noConfusion h)
  | .element k1 n1 p1 a1 c1, .element k2 n2 p2 a2 c2 =>
      if h1 : k1 = k2 then
        if h2 : n1 = n2 then
          if h3 : p1 = p2 then
            if h4 : a1 = a2 then
              match ViewNode.decEqList c1 c2 with
              | .isTrue h5 => .isTrue (by rw [h1, h2, h3, h4, h5])
              | .isFalse h5 => .isFalse (fun hh => h5 (ViewNode.element.inj hh).2.2.2.2)
            else .isFalse (fun hh => h4 (ViewNode.element.inj hh).2.2.2.1)
          else .isFalse (fun hh => h3 (ViewNode.element.inj hh).2.2.1)
        else .isFalse (fun hh => h2 (ViewNode.element.inj hh).2.1)
      else .isFalse (fun hh => h1 (ViewNode.element.inj hh).1)
  | .fragment c1, .fragment c2 =>
      match ViewNode.decEqList c1 c2 with
      | .isTrue h5 => .isTrue (by rw [h5])
      | .isFalse h5 => .isFalse (fun hh => h5 (ViewNode.fragment.inj hh))

/-- Decidable equality on lists of typed view nodes. -/
def ViewNode.decEqList : (a b : List ViewNode) → Decidable (a = b)
  | [], [] => .isTrue rfl
  | [], _ :: _ => .isFalse (fun h => List.noConfusion h)
  | _ :: _, [] => .isFalse (fun h => List.noConfusion h)
  | x :: xs, y :: ys =>
      match ViewNode.decEq x y, ViewNode.decEqList xs ys with
      | .isTrue h1, .isTrue h2 => .isTrue (by rw [h1, h2])
      | .isFalse h1, _ => .isFalse (fun hh => h1 (List.cons.inj hh).1)
      | .isTrue _, .isFalse h2 => .isFalse (fun hh => h2 (List.cons.inj hh).2)

end

instance : DecidableEq ViewNode := ViewNode.decEq

/-- Modelled from the spec: the engine's `AttributeElement` carries a default
priority when none is supplied to the constructor (the element classes are
not part of this repository). -/
def DEFAULT_PRIORITY : Int := 10

/-- Public constructor: a text node. -/
def mkText (data : Str) : ViewNode := ViewNode.text data

/-- Public constructor: a plain element. -/
def mkElement (name : Str) (attrs : List (Str × Str)) (children : List ViewNode) : ViewNode :=
  ViewNode.element EKind.plain name DEFAULT_PRIORITY attrs children

/-- Public constructor: a container element. -/
def mkContainerElement (name : Str) (attrs : List (Str × Str)) (children : List ViewNode) : ViewNode :=
  ViewNode.element EKind.container name DEFAULT_PRIORITY attrs children

/-- Public constructor: an attribute element with an optional priority. -/
def mkAttributeElement (name : Str) (priority : Option Int) (attrs : List (Str × Str))
    (children : List ViewNode) : ViewNode :=
  ViewNode.element EKind.attribute name (priority.getD DEFAULT_PRIORITY) attrs children

/-- Public constructor: a document fragment. -/
def mkFragment (children : List ViewNode) : ViewNode := ViewNode.fragment children

/-- A position in the tree: the owner node is identified by its path from the
root of the final (marker-stripped) tree; `offset` is a child index for a
container owner or a character index for a text owner.  Paths model the JS
object identity of node references. -/
structure VPos where
  parentPath : List Nat
  offset : Nat
deriving DecidableEq, Repr

/-- A range between two positions (engine `Range`). -/
structure VRange where
  start : VPos
  stop : VPos
deriving DecidableEq, Repr

/-- The engine derives `isCollapsed` from start/end equality. -/
def VRange.isCollapsed (r : VRange) : Bool := r.start = r.stop

/-- A recorded boundary token occurrence: the matched character together with
the position it denotes (`RangeParser._positions` entries). -/
structure PosItem where
  bracket : Char
  position : VPos
deriving DecidableEq, Repr

/-- A selection: ranges plus the backward flag. -/
structure VSelection where
  ranges : List VRange
  lastRangeBackward : Bool
deriving DecidableEq, Repr

/-- Result of `parse`: a bare tree when no range markers were found, or a
tree together with a selection. -/
inductive ParseResult where
  | tree (view : ViewNode)
  | withSelection (view : ViewNode) (selection : VSelection)
deriving DecidableEq

/-- The generic (HTML-like) tree produced by the external collaborator:
generic fragment, generic element (tag name, attributes, children) and
generic text. -/
inductive DomNode where
  | text (content : Str)
  | element (tagName : Str) (attrs : List (Str × Str)) (children : List DomNode)
  | fragment (children : List DomNode)

mutual

/-- Decidable equality on generic DOM nodes. -/
def DomNode.decEq : (a b : DomNode) → Decidable (a = b)
  | .text d1, .text d2 =>
      if h : d1 = d2 then .isTrue (by rw [h]) else .isFalse (fun hh => h (DomNode.text.inj hh))
  | .text _, .element .. => .isFalse (fun h => DomNode.noConfusion h)
  | .text _, .fragment _ => .isFalse (fun h => DomNode.noConfusion h)
  | .element .., .text _ => .isFalse (fun h => DomNode.noConfusion h)
  | .element .., .fragment _ => .isFalse (fun h => DomNode.noConfusion h)
  | .fragment _, .text _ => .isFalse (fun h => DomNode.noConfusion h)
  | .fragment _, .element .. => .isFalse (fun h => DomNode.noConfusion h)
  | .element t1 a1 c1, .element t2 a2 c2 =>
      if h1 : t1 = t2 then
        if h2 : a1 = a2 then
          match DomNode.decEqList c1 c2 with
          | .isTrue h3 => .isTrue (by rw [h1, h2, h3])
          | .isFalse h3 => .isFalse (fun hh => h3 (DomNode.element.inj hh).2.2)
        else .isFalse (fun hh => h2 (DomNode.element.inj hh).2.1)
      else .isFalse (fun hh => h1 (DomNode.element.inj hh).1)
  | .fragment c1, .fragment c2 =>
      match DomNode.decEqList c1 c2 with
      | .isTrue h3 => .isTrue (by rw [h3])
      | .isFalse h3 => .isFalse (fun hh => h3 (DomNode.fragment.inj hh))

/-- Decidable equality on lists of generic DOM nodes. -/
def DomNode.decEqList : (a b : List DomNode) → Decidable (a = b)
  | [], [] => .isTrue rfl
  | [], _ :: _ => .isFalse (fun h => List.noConfusion h)
  | _ :: _, [] => .isFalse (fun h => List.noConfusion h)
  | x :: xs, y :: ys =>
      match DomNode.decEq x y, DomNode.decEqList xs ys with
      | .isTrue h1, .isTrue h2 => .isTrue (by rw [h1, h2])
      | .isFalse h1, _ => .isFalse (fun hh => h1 (List.cons.inj hh).1)
      | .isTrue _, .isFalse h2 => .isFalse (fun hh => h2 (List.cons.inj hh).2)

end

instance : DecidableEq DomNode := DomNode.decEq

/-- JS `String.prototype.split(':')` on a character list. -/
def splitOnColon : Str → List Str
  | [] => [[]]
  | c :: rest =>
      if c = ':' then [] :: splitOnColon rest
      else
        match splitOnColon rest with
        | [] => [[c]]
        | s :: ss => (c :: s) :: ss

/-- JS whitespace characters relevant to `parseInt` trimming. -/
def isJsWhitespace (c : Char) : Bool :=
  c = ' ' || c = '\t' || c = '\n' || c = '\r'

/-- Decimal digit test. -/
def isDigitChar (c : Char) : Bool := '0' ≤ c && c ≤ '9'

/-- Numeric value of a decimal digit string (most significant first). -/
def digitsVal (cs : Str) : Nat :=
  cs.foldl (fun acc c => 10 * acc + (c.toNat - 48)) 0

/-- JS `parseInt(s, 10)`: skip leading whitespace, read an optional sign and
then the longest prefix of decimal digits, ignoring everything after it;
`none` models `NaN` (no digits found). -/
def jsParseInt (s : Str) : Option Int :=
  let t := s.dropWhile isJsWhitespace
  let neg : Bool := t.take 1 = ['-']
  let u : Str := if t.take 1 = ['-'] || t.take 1 = ['+'] then t.drop 1 else t
  let digits := u.takeWhile isDigitChar
  if digits = [] then none
  else
    let v : Int := (digitsVal digits : Int)
    some (if neg then -v else v)

/-- Decimal digit character for a value below ten. -/
def digitChar (n : Nat) : Char := Char.ofNat (48 + n)

/-- Decimal digits of a natural number, most significant first; the fuel is
structural and `n + 1` steps always suffice. -/
def natDigitsAux : Nat → Nat → Str
  | 0, _ => []
  | fuel + 1, n =>
      if n < 10 then [digitChar n]
      else natDigitsAux fuel (n / 10) ++ [digitChar (n % 10)]

/-- Decimal digits of a natural number, most significant first. -/
def natDigits (n : Nat) : Str := natDigitsAux (n + 1) n

/-- JS number-to-string conversion for integer values. -/
def intToStr (i : Int) : Str :=
  if i < 0 then '-' :: natDigits (-i).toNat else natDigits i.toNat

/-- Decoded tag-name information (`ViewParser._convertElementName` result). -/
structure TagInfo where
  name : Str
  type : Option EKind
  priority : Option Int
deriving DecidableEq, Repr

/-- `ViewParser._convertType`: recognizes the literal type segments. -/
def convertType (t : Str) : Option EKind :=
  if t = "container".data then some EKind.container
  else if t = "attribute".data then some EKind.attribute
  else none

/-- `ViewParser._convertPriority`: `parseInt` with a `NaN` check. -/
def convertPriority (priorityString : Str) : Option Int :=
  jsParseInt priorityString

/-- `ViewParser._convertElementName`: decode the colon-separated tag name of
a generic element into name, type and priority. -/
def convertElementName (tagName : Str) : Except PErr TagInfo :=
  let lowered := tagName.map Char.toLower
  let parts := splitOnColon lowered
  match parts with
  | [p0] => .ok ⟨p0, none, none⟩
  | [p0, p1] =>
      match convertType p0 with
      | some t => .ok ⟨p1, some t, none⟩
      | none =>
          match convertPriority p1 with
          | some pr => .ok ⟨p0, some EKind.attribute, some pr⟩
          | none => .error (.tagGrammar lowered)
  | [p0, p1, p2] =>
      match convertType p0, convertPriority p2 with
      | some t, some pr => .ok ⟨p1, some t, some pr⟩
      | _, _ => .error (.tagGrammar lowered)
  | _ => .error (.tagGrammar lowered)

/-- Engine `Element.setAttribute` on the insertion-ordered attribute map:
replace the value in place when the key exists, append otherwise. -/
def viewSetAttribute (attrs : List (Str × Str)) (k v : Str) : List (Str × Str) :=
  match attrs with
  | [] => [(k, v)]
  | (k0, v0) :: rest =>
      if k0 = k then (k0, v) :: rest else (k0, v0) :: viewSetAttribute rest k v

/-- `ViewParser._convertElement` minus the tag-name decoding: build the typed
element of the decoded kind and copy the generic attributes one
`setAttribute` at a time. -/
def buildElement (info : TagInfo) (attrs : List (Str × Str)) (children : List ViewNode) : ViewNode :=
  let base : ViewNode :=
    match info.type with
    | some EKind.attribute =>
        ViewNode.element EKind.attribute info.name (info.priority.getD DEFAULT_PRIORITY) [] children
    | some EKind.container =>
        ViewNode.element EKind.container info.name DEFAULT_PRIORITY [] children
    | _ =>
        ViewNode.element EKind.plain info.name DEFAULT_PRIORITY [] children
  match base with
  | ViewNode.element k n p _ cs =>
      ViewNode.element k n p (attrs.foldl (fun m kv => viewSetAttribute m kv.1 kv.2) []) cs
  | other => other

mutual

/-- `ViewParser._walkDom`: convert the generic tree to the typed tree.  A
generic fragment with exactly one child collapses to the conversion of that
child; generic elements go through the tag grammar; generic text becomes
typed text verbatim. -/
def walkDom : DomNode → Except PErr ViewNode
  | .text c => .ok (.text c)
  | .fragment [c] => walkDom c
  | .fragment children => do
      let vs ← walkDomList children
      .ok (.fragment vs)
  | .element tag attrs children => do
      let info ← convertElementName tag
      let vs ← walkDomList children
      .ok (buildElement info attrs vs)

/-- Children conversion for `ViewParser._walkDom`. -/
def walkDomList : List DomNode → Except PErr (List ViewNode)
  | [] => .ok []
  | c :: cs => do
      let v ← walkDom c
      let vs ← walkDomList cs
      .ok (v :: vs)

end

/-- Split at the first occurrence of `c`: the prefix before it and the rest
starting at `c` (or the whole list and `[]` when absent). -/
def takeUntil (c : Char) (cs : Str) : Str × Str :=
  (cs.takeWhile (fun x => x ≠ c), cs.dropWhile (fun x => x ≠ c))

/-- Modelled from the spec: attribute parsing of the external markup
tokenizer (`HtmlDataProcessor`), reading space-separated
`name="value"` pairs. -/
def parseAttrList (fuel : Nat) (cs : Str) : Option (List (Str × Str)) :=
  match fuel with
  | 0 => none
  | fuel + 1 =>
      match cs with
      | [] => some []
      | c :: rest =>
          if c = ' ' then parseAttrList fuel rest
          else
            let an := (c :: rest).takeWhile (fun x => x ≠ '=' && x ≠ ' ')
            if an = [] then none
            else
              let r1 := (c :: rest).drop an.length
              if r1.take 2 = ['=', '"'] then
                let av := (r1.drop 2).takeWhile (fun x => x ≠ '"')
                let r3 := (r1.drop 2).drop av.length
                if r3.take 1 = ['"'] then
                  match parseAttrList fuel (r3.drop 1) with
                  | some restAttrs => some ((an, av) :: restAttrs)
                  | none => none
                else none
              else none

/-- Modelled from the spec: decompose the inside of an opening tag into the
tag name and its attribute list. -/
def parseTagContent (cs : Str) : Option (Str × List (Str × Str)) :=
  let name := cs.takeWhile (fun c => c ≠ ' ')
  if name = [] then none
  else
    match parseAttrList (cs.length + 1) (cs.drop name.length) with
    | some attrs => some (name, attrs)
    | none => none

/-- Modelled from the spec: the external raw-markup tokenizer
(`HtmlDataProcessor.toDom` collaborator).  It accepts a string and returns a
generic tree; here a list of sibling nodes is read until the input is
exhausted or a closing tag is reached.  Inputs outside the modelled
well-formed grammar yield `none`. -/
def parseNodes (fuel : Nat) (cs : Str) : Option (List DomNode × Str) :=
  match fuel with
  | 0 => none
  | fuel + 1 =>
      match cs with
      | [] => some ([], [])
      | c :: rest =>
          if c = '<' then
            if rest.take 1 = ['/'] then some ([], c :: rest)
            else
              let (tagChunk, rest1) := takeUntil '>' rest
              if rest1.take 1 = ['>'] then
                match parseTagContent tagChunk with
                | none => none
                | some (name, attrs) =>
                    match parseNodes fuel (rest1.drop 1) with
                    | none => none
                    | some (children, rest3) =>
                        if rest3.take 2 = ['<', '/'] then
                          let (closeChunk, rest5) := takeUntil '>' (rest3.drop 2)
                          if rest5.take 1 = ['>'] then
                            if closeChunk = name then
                              match parseNodes fuel (rest5.drop 1) with
                              | none => none
                              | some (siblings, rest7) =>
                                  some (.element name attrs children :: siblings, rest7)
                            else none
                          else none
                        else none
              else none
          else
            let (txt, rest1) := takeUntil '<' (c :: rest)
            match parseNodes fuel rest1 with
            | none => none
            | some (siblings, rest2) => some (.text txt :: siblings, rest2)

/-- Modelled from the spec: `HtmlDataProcessor.toDom` wraps the parsed
sibling nodes in a generic document fragment. -/
def toDom (data : Str) : Option DomNode :=
  match parseNodes (data.length + 1) data with
  | some (ns, []) => some (.fragment ns)
  | _ => none

/-- The character class of the phase-1 scanner regular expression
`[ {}\]\[ ]` from `RangeParser._getPositions`: the four boundary tokens and
the space character. -/
def isScanToken (c : Char) : Bool :=
  c = ' ' || c = TEXT_RANGE_START_TOKEN || c = TEXT_RANGE_END_TOKEN ||
  c = ELEMENT_RANGE_END_TOKEN || c = ELEMENT_RANGE_START_TOKEN

/-- The scanner's bracket-collection loop: every match of the character class
paired with its offset inside the progressively stripped text
(`match.index - offset` in the source). -/
def collectBrackets : Str → Nat → Nat → List (Char × Nat)
  | [], _, _ => []
  | c :: cs, i, m =>
      if isScanToken c then (c, i - m) :: collectBrackets cs (i + 1) (m + 1)
      else collectBrackets cs (i + 1) m

/-- Classification of the recorded brackets of one text node
(`RangeParser._getPositions`, text-node branch): text-boundary tokens become
positions inside the text node; element-boundary tokens must sit at an edge
of the stripped text and become positions in the parent container; all
brackets of an emptied text node become parent-container positions, with
text-boundary tokens rejected. -/
def classifyBrackets (items : List (Char × Nat)) (stripped : Str)
    (textPath : List Nat) (parentPath : List Nat) (index : Nat) :
    Except PErr (List PosItem) :=
  match items with
  | [] => .ok []
  | (b, t) :: rest => do
      let item ←
        if stripped ≠ [] then
          if b = TEXT_RANGE_START_TOKEN || b = TEXT_RANGE_END_TOKEN then
            Except.ok (⟨b, ⟨textPath, t⟩⟩ : PosItem)
          else
            if t ≠ 0 && t ≠ stripped.length then
              Except.error PErr.markerPlacement
            else
              Except.ok (⟨b, ⟨parentPath, if t = 0 then index else index + 1⟩⟩ : PosItem)
        else
          if b = TEXT_RANGE_START_TOKEN || b = TEXT_RANGE_END_TOKEN then
            Except.error PErr.markerPlacement
          else
            Except.ok (⟨b, ⟨parentPath, index⟩⟩ : PosItem)
      let restItems ← classifyBrackets rest stripped textPath parentPath index
      .ok (item :: restItems)

/-- The text-node branch of `RangeParser._getPositions`: collect and strip
the boundary tokens of one text node, remove the node when it became empty,
and classify each recorded bracket into a position.  `parentPath`/`index`
locate the node among its parent's still-present children. -/
def scanText (data : Str) (parentPath : List Nat) (index : Nat) :
    Except PErr (Option ViewNode × List PosItem) := do
  let items := collectBrackets data 0 0
  let stripped := data.filter (fun c => !isScanToken c)
  let ps ← classifyBrackets items stripped (parentPath ++ [index]) parentPath index
  if stripped = [] then
    .ok (none, ps)
  else
    .ok (some (.text stripped), ps)

mutual

/-- `RangeParser._getPositions` for a non-root node: depth-first walk that
rebuilds the (possibly stripped) node and emits the recorded positions in
document order.  `parentPath ++ [index]` is the node's path in the final
tree. -/
def getPosNode : ViewNode → List Nat → Nat → Except PErr (Option ViewNode × List PosItem)
  | .text data, parentPath, index => scanText data parentPath index
  | .element k n p a cs, parentPath, index => do
      let (cs', ps) ← getPosChildren cs (parentPath ++ [index]) 0
      .ok (some (.element k n p a cs'), ps)
  | .fragment cs, parentPath, index => do
      let (cs', ps) ← getPosChildren cs (parentPath ++ [index]) 0
      .ok (some (.fragment cs'), ps)

/-- Child iteration of `RangeParser._getPositions`: the source iterates over
a snapshot of the children while removals shift the live indices of the
remaining ones, so the running index counts only the kept children. -/
def getPosChildren : List ViewNode → List Nat → Nat → Except PErr (List ViewNode × List PosItem)
  | [], _, _ => .ok ([], [])
  | c :: cs, selfPath, kept => do
      let (co, ps) ← getPosNode c selfPath kept
      match co with
      | some c' => do
          let (cs', ps') ← getPosChildren cs selfPath (kept + 1)
          .ok (c' :: cs', ps ++ ps')
      | none => do
          let (cs', ps') ← getPosChildren cs selfPath kept
          .ok (cs', ps ++ ps')

end

/-- `RangeParser._getPositions` at the root.  The root's path is `[]`.  A
root text node has no parent: when it empties, the source calls `remove()`
on a parentless node (a crash, modelled as `typeError`); when it records
any bracket, the source builds positions with a `null` parent, which this
embedding does not represent and conservatively models as the same crash. -/
def getPosRoot : ViewNode → Except PErr (Option ViewNode × List PosItem)
  | .text data =>
      if collectBrackets data 0 0 = [] then
        if data = [] then .error PErr.typeError
        else .ok (some (.text data), [])
      else .error PErr.typeError
  | .element k n p a cs => do
      let (cs', ps) ← getPosChildren cs [] 0
      .ok (some (.element k n p a cs'), ps)
  | .fragment cs => do
      let (cs', ps) ← getPosChildren cs [] 0
      .ok (some (.fragment cs'), ps)

/-- `RangeParser._createRanges` as a fold with the single open-range slot:
an end token with an empty slot and a start token with an occupied slot are
unbalanced; a start token opens the slot; any other token (an end token, or
a stray space recorded by the scanner) closes the open range, crashing
(`typeError`, null dereference) when the slot is empty; a still-open slot at
the end of the stream is unbalanced. -/
def createRangesAux : Option VRange → List PosItem → Except PErr (List VRange)
  | slot, [] =>
      match slot with
      | some _ => .error PErr.unbalanced
      | none => .ok []
  | slot, item :: rest =>
      if slot = none &&
         (item.bracket = ELEMENT_RANGE_END_TOKEN || item.bracket = TEXT_RANGE_END_TOKEN) then
        .error PErr.unbalanced
      else if slot ≠ none &&
         (item.bracket = ELEMENT_RANGE_START_TOKEN || item.bracket = TEXT_RANGE_START_TOKEN) then
        .error PErr.unbalanced
      else if item.bracket = ELEMENT_RANGE_START_TOKEN || item.bracket = TEXT_RANGE_START_TOKEN then
        createRangesAux (some ⟨item.position, item.position⟩) rest
      else
        match slot with
        | some r => do
            let rs ← createRangesAux none rest
            .ok (⟨r.start, item.position⟩ :: rs)
        | none => .error PErr.typeError

/-- `RangeParser._createRanges` over the recorded position stream. -/
def createRanges (ps : List PosItem) : Except PErr (List VRange) :=
  createRangesAux none ps

/-- JS sparse-array assignment `a[k] = v`: set in bounds, otherwise pad with
holes (`none`) up to index `k`. -/
def jsArraySet (a : List (Option VRange)) (k : Nat) (v : Option VRange) : List (Option VRange) :=
  if k < a.length then a.set k v
  else a ++ List.replicate (k - a.length) none ++ [v]

/-- The loop of `RangeParser._sortRanges`: `sortedRanges[newPosition - 1] =
ranges[index]`, failing when `ranges[newPosition - 1]` is undefined (target
index out of range). -/
def sortRangesAux (ranges : List VRange) : List Int → Nat → List (Option VRange) →
    Except PErr (List (Option VRange))
  | [], _, acc => .ok acc
  | np :: rest, index, acc =>
      if np - 1 < 0 || np - 1 ≥ (ranges.length : Int) then .error PErr.invalidRangeOrder
      else sortRangesAux ranges rest (index + 1) (jsArraySet acc (np - 1).toNat (ranges.get? index))

/-- `RangeParser._sortRanges`. -/
def sortRanges (ranges : List VRange) (rangesOrder : List Int) : Except PErr (List (Option VRange)) :=
  sortRangesAux ranges rangesOrder 0 []

/-- The order-option block of `RangeParser.parse`: count check then sort. -/
def applyOrder (ranges : List VRange) (order : List Int) : Except PErr (List (Option VRange)) :=
  if order.length ≠ 0 then
    if order.length ≠ ranges.length then .error PErr.rangeCountMismatch
    else sortRanges ranges order
  else .ok (ranges.map some)

/-- `RangeParser.parse`: scan positions, build ranges, apply the order
option.  The (stripped) tree is returned alongside, modelling the source's
in-place mutation of the tree it was given. -/
def rangeParserParse (node : ViewNode) (order : List Int) :
    Except PErr (Option ViewNode × List (Option VRange)) := do
  let (node', ps) ← getPosRoot node
  let ranges ← createRanges ps
  let sorted ← applyOrder ranges order
  .ok (node', sorted)

/-- Engine `Selection.setRanges` consuming the (possibly sparse) range
array: any hole crashes (`typeError`). -/
def setRangesModel (l : List (Option VRange)) : Except PErr (List VRange) :=
  match l with
  | [] => .ok []
  | some r :: rest => do
      let rs ← setRangesModel rest
      .ok (r :: rs)
  | none :: _ => .error PErr.typeError

/-- The exported `parse(data, options)`: external tokenizer, tree builder,
range parser, and selection construction when at least one range was
found. -/
def parse (data : Str) (order : List Int) (lastRangeBackward : Bool) :
    Except PErr ParseResult := do
  let dom ←
    match toDom data with
    | some d => Except.ok d
    | none => Except.error PErr.externalParse
  let view ← walkDom dom
  let (view', rangesOpt) ← rangeParserParse view order
  match view' with
  | none => .error PErr.typeError
  | some v =>
      if rangesOpt.length ≠ 0 then do
        let rs ← setRangesModel rangesOpt
        .ok (.withSelection v ⟨rs, lastRangeBackward⟩)
      else .ok (.tree v)

/-- `ViewStringify._stringifyElementType`: the type segment, shown only for
container/attribute elements when `showType` is set. -/
def stringifyElementType (showType : Bool) (kind : EKind) : Str :=
  if showType then
    match kind with
    | EKind.attribute => "attribute".data
    | EKind.container => "container".data
    | EKind.plain => []
  else []

/-- `ViewStringify._stringifyElementPriority`: the priority segment, shown
only for attribute elements when `showPriority` is set. -/
def stringifyElementPriority (showPriority : Bool) (kind : EKind) (priority : Int) : Str :=
  if showPriority && kind = EKind.attribute then intToStr priority else []

/-- JS `Array.prototype.join(sep)` over character lists. -/
def joinSep (sep : Char) : List Str → Str
  | [] => []
  | [x] => x
  | x :: xs => x ++ sep :: joinSep sep xs

/-- The `[type, name, priority].filter(i => i !== '').join(':')` tag-name
construction shared by the opening and closing tag printers. -/
def tagNameOf (showType showPriority : Bool) (kind : EKind) (name : Str) (priority : Int) : Str :=
  joinSep ':' (([stringifyElementType showType kind, name,
    stringifyElementPriority showPriority kind priority]).filter (fun s => s ≠ []))

/-- `ViewStringify._stringifyElementAttributes`: `key="value"` pairs joined
by single spaces, in the element's own attribute order. -/
def stringifyElementAttributes (attrs : List (Str × Str)) : Str :=
  joinSep ' ' (attrs.map (fun kv => kv.1 ++ '=' :: '"' :: kv.2 ++ ['"']))

/-- `ViewStringify._stringifyElementOpen`. -/
def stringifyElementOpen (showType showPriority : Bool) (kind : EKind) (name : Str)
    (priority : Int) (attrs : List (Str × Str)) : Str :=
  let tagName := tagNameOf showType showPriority kind name priority
  let attrStr := stringifyElementAttributes attrs
  '<' :: joinSep ' ' (([tagName, attrStr]).filter (fun s => s ≠ [])) ++ ['>']

/-- `ViewStringify._stringifyElementClose`. -/
def stringifyElementClose (showType showPriority : Bool) (kind : EKind) (name : Str)
    (priority : Int) : Str :=
  '<' :: '/' :: tagNameOf showType showPriority kind name priority ++ ['>']

/-- The per-range body of the `ViewStringify._stringifyElementRanges` loop
over the (start, end, collapsed) accumulator. -/
def elementRangeStep (path : List Nat) (offset : Nat) (acc : Str × Str × Str)
    (r : VRange) : Str × Str × Str :=
  let s := acc.1
  let e := acc.2.1
  let c := acc.2.2
  let sc :=
    if r.start.parentPath = path && r.start.offset = offset then
      if r.isCollapsed then
        (s, c ++ [ELEMENT_RANGE_START_TOKEN, ELEMENT_RANGE_END_TOKEN])
      else (s ++ [ELEMENT_RANGE_START_TOKEN], c)
    else (s, c)
  let e' :=
    if r.stop.parentPath = path && r.stop.offset = offset && !r.isCollapsed then
      e ++ [ELEMENT_RANGE_END_TOKEN]
    else e
  (sc.1, e', sc.2)

/-- `ViewStringify._stringifyElementRanges`: one pass over the ranges
accumulating the start, end and collapsed buckets for a container offset,
emitted as end ++ collapsed ++ start. -/
def stringifyElementRanges (ranges : List VRange) (path : List Nat) (offset : Nat) : Str :=
  let acc := ranges.foldl (elementRangeStep path offset) ([], [], [])
  acc.2.1 ++ acc.2.2 ++ acc.1

/-- One per-character cell of `ViewStringify._stringifyTextRanges`: the
letter together with the accumulated start, end and collapsed buckets. -/
structure TextSlot where
  letter : Str
  startS : Str
  endS : Str
  collapsedS : Str
deriving DecidableEq, Repr

/-- The initial cells: one per character plus one more for ranges ending
after the last character. -/
def initSlots (data : Str) : List TextSlot :=
  data.map (fun c => ⟨[c], [], [], []⟩) ++ [⟨[], [], [], []⟩]

/-- Apply `f` to the cell at index `i` (in-bounds writes only, matching the
source's guarded array accesses). -/
def updSlot (res : List TextSlot) (i : Nat) (f : TextSlot → TextSlot) : List TextSlot :=
  match res.get? i with
  | some s => res.set i (f s)
  | none => res

/-- The per-range body of the `ViewStringify._stringifyTextRanges` loop:
a collapsed range appends its pair at the end offset, a start appends at the
start offset, an end appends at the end offset, all guarded by the owner and
bound checks of the source. -/
def textRangeStep (path : List Nat) (len : Nat) (res : List TextSlot) (r : VRange) :
    List TextSlot :=
  let res1 :=
    if r.start.parentPath = path && r.start.offset ≤ len then
      if r.isCollapsed then
        updSlot res r.stop.offset
          (fun s => { s with collapsedS :=
            s.collapsedS ++ [TEXT_RANGE_START_TOKEN, TEXT_RANGE_END_TOKEN] })
      else
        updSlot res r.start.offset
          (fun s => { s with startS := s.startS ++ [TEXT_RANGE_START_TOKEN] })
    else res
  if r.stop.parentPath = path && r.stop.offset ≤ len && !r.isCollapsed then
    updSlot res1 r.stop.offset (fun s => { s with endS := s.endS ++ [TEXT_RANGE_END_TOKEN] })
  else res1

/-- `ViewStringify._stringifyTextRanges`: the text content with boundary
tokens of ranges anchored in this text node inserted per character offset as
end ++ collapsed ++ start. -/
def stringifyTextRanges (ranges : List VRange) (path : List Nat) (data : Str) : Str :=
  let slots := ranges.foldl (textRangeStep path data.length) (initSlots data)
  (slots.map (fun s => s.endS ++ s.collapsedS ++ s.startS ++ s.letter)).flatten

mutual

/-- `ViewStringify._walkView`: opening tag (element only), ranges at child
offset 0, each child followed by ranges at the next offset, closing tag;
text nodes delegate to the text-range printer.  `path` locates the node
from the stringified root. -/
def walkView (ranges : List VRange) (showType showPriority : Bool) :
    ViewNode → List Nat → Str
  | .text data, path => stringifyTextRanges ranges path data
  | .element k n p a cs, path =>
      stringifyElementOpen showType showPriority k n p a ++
      stringifyElementRanges ranges path 0 ++
      walkViewChildren ranges showType showPriority cs path 0 ++
      stringifyElementClose showType showPriority k n p
  | .fragment cs, path =>
      stringifyElementRanges ranges path 0 ++
      walkViewChildren ranges showType showPriority cs path 0

/-- Child loop of `ViewStringify._walkView`: child at index `i` followed by
the ranges anchored at offset `i + 1`. -/
def walkViewChildren (ranges : List VRange) (showType showPriority : Bool) :
    List ViewNode → List Nat → Nat → Str
  | [], _, _ => []
  | c :: cs, path, i =>
      walkView ranges showType showPriority c (path ++ [i]) ++
      stringifyElementRanges ranges path (i + 1) ++
      walkViewChildren ranges showType showPriority cs path (i + 1)

end

/-- The exported `stringify(node, selection, options)`. -/
def stringify (node : ViewNode) (selection : Option VSelection)
    (showType showPriority : Bool) : Str :=
  let ranges := match selection with
    | some s => s.ranges
    | none => []
  walkView ranges showType showPriority node []

/-- Decidable equality for `Except` results, used to evaluate the codec on
concrete inputs. -/
instance {ε α : Type} [DecidableEq ε] [DecidableEq α] : DecidableEq (Except ε α) :=
  fun a b =>
    match a, b with
    | .ok x, .ok y =>
        if h : x = y then .isTrue (by rw [h]) else .isFalse (fun hh => h (Except.ok.inj hh))
    | .error x, .error y =>
        if h : x = y then .isTrue (by rw [h]) else .isFalse (fun hh => h (Except.error.inj hh))
    | .ok _, .error _ => .isFalse (fun h => Except.noConfusion h)
    | .error _, .ok _ => .isFalse (fun h => Except.noConfusion h)

/-- All element-range end tokens of non-collapsed ranges ending at the given
container offset, in range order. -/
def elemEndTokensAt (ranges : List VRange) (path : List Nat) (offset : Nat) : Str :=
  ((ranges.filter (fun r =>
      r.stop.parentPath = path && r.stop.offset = offset && !r.isCollapsed)).map
    (fun _ => [ELEMENT_RANGE_END_TOKEN])).flatten

/-- All open+close pairs of ranges collapsed at the given container offset,
in range order. -/
def elemCollapsedTokensAt (ranges : List VRange) (path : List Nat) (offset : Nat) : Str :=
  ((ranges.filter (fun r =>
      r.start.parentPath = path && r.start.offset = offset && r.isCollapsed)).map
    (fun _ => [ELEMENT_RANGE_START_TOKEN, ELEMENT_RANGE_END_TOKEN])).flatten

/-- All element-range start tokens of non-collapsed ranges starting at the
given container offset, in range order. -/
def elemStartTokensAt (ranges : List VRange) (path : List Nat) (offset : Nat) : Str :=
  ((ranges.filter (fun r =>
      r.start.parentPath = path && r.start.offset = offset && !r.isCollapsed)).map
    (fun _ => [ELEMENT_RANGE_START_TOKEN])).flatten

/-- All text-range end tokens of non-collapsed ranges ending at the given
character offset, in range order. -/
def textEndTokensAt (ranges : List VRange) (path : List Nat) (o : Nat) : Str :=
  ((ranges.filter (fun r =>
      r.stop.parentPath = path && r.stop.offset = o && !r.isCollapsed)).map
    (fun _ => [TEXT_RANGE_END_TOKEN])).flatten

/-- All open+close pairs of ranges collapsed at the given character offset,
in range order. -/
def textCollapsedTokensAt (ranges : List VRange) (path : List Nat) (o : Nat) : Str :=
  ((ranges.filter (fun r =>
      r.start.parentPath = path && r.start.offset = o && r.isCollapsed)).map
    (fun _ => [TEXT_RANGE_START_TOKEN, TEXT_RANGE_END_TOKEN])).flatten

/-- All text-range start tokens of non-collapsed ranges starting at the
given character offset, in range order. -/
def textStartTokensAt (ranges : List VRange) (path : List Nat) (o : Nat) : Str :=
  ((ranges.filter (fun r =>
      r.start.parentPath = path && r.start.offset = o && !r.isCollapsed)).map
    (fun _ => [TEXT_RANGE_START_TOKEN])).flatten

mutual

/-- No text node of the tree carries empty content. -/
def NoEmptyText : ViewNode → Bool
  | .text data => decide (data ≠ [])
  | .element _ _ _ _ cs => NoEmptyTextList cs
  | .fragment cs => NoEmptyTextList cs

/-- List form of `NoEmptyText`. -/
def NoEmptyTextList : List ViewNode → Bool
  | [] => true
  | c :: cs => NoEmptyText c && NoEmptyTextList cs

end

/-- Characters admissible in element and attribute names for the round-trip
statement: lowercase ASCII letters, decimal digits and the hyphen. -/
def allowedNameChars : Str := "abcdefghijklmnopqrstuvwxyz0123456789-".data

/-- A good (round-trippable) name: nonempty and made of admissible
characters only. -/
def goodName (s : Str) : Bool :=
  s ≠ [] && s.all (fun c => decide (c ∈ allowedNameChars))

/-- Good text content: nonempty and free of the scanner tokens (including
the space character) and of the tag-opening character. -/
def goodText (s : Str) : Bool :=
  s ≠ [] && s.all (fun c => !isScanToken c && c ≠ '<')

/-- Good attribute value: free of the quote and tag-closing characters. -/
def goodAttrVal (s : Str) : Bool :=
  s.all (fun c => c ≠ '"' && c ≠ '>')

/-- Good attribute list: good names and values, duplicate-free keys. -/
def goodAttrs (l : List (Str × Str)) : Bool :=
  l.all (fun kv => goodName kv.1 && goodAttrVal kv.2) && decide (l.map Prod.fst).Nodup

/-- No two adjacent text siblings (the external tokenizer merges adjacent
text when re-parsing). -/
def noAdjacentTexts : List ViewNode → Bool
  | .text _ :: .text _ :: _ => false
  | _ :: rest => noAdjacentTexts rest
  | [] => true

mutual

/-- A non-root node is round-trippable: good text/name/attributes, default
priority outside the attribute kind, no nested fragments, no adjacent text
siblings. -/
def GoodNode : ViewNode → Bool
  | .text data => goodText data
  | .element k n p attrs cs =>
      goodName n && (k = EKind.attribute || decide (p = DEFAULT_PRIORITY)) &&
      goodAttrs attrs && noAdjacentTexts cs && GoodNodeList cs
  | .fragment _ => false

/-- List form of `GoodNode`. -/
def GoodNodeList : List ViewNode → Bool
  | [] => true
  | c :: cs => GoodNode c && GoodNodeList cs

end

/-- A round-trippable root: an element, or a fragment whose child count is
not one (a fragment of one would be elided by the tree builder). -/
def GoodRoot : ViewNode → Bool
  | .text _ => false
  | .element k n p a cs => GoodNode (.element k n p a cs)
  | .fragment cs => decide (cs.length ≠ 1) && noAdjacentTexts cs && GoodNodeList cs

mutual

/-- The stringifier restricted to an empty range list: plain markup text of
the tree (reference printer for the round-trip argument). -/
def plainPrint (st sp : Bool) : ViewNode → Str
  | .text data => data
  | .element k n p a cs =>
      stringifyElementOpen st sp k n p a ++ plainPrintList st sp cs ++
      stringifyElementClose st sp k n p
  | .fragment cs => plainPrintList st sp cs

/-- List form of `plainPrint`. -/
def plainPrintList (st sp : Bool) : List ViewNode → Str
  | [] => []
  | c :: cs => plainPrint st sp c ++ plainPrintList st sp cs

end

mutual

/-- The generic tree the external tokenizer recovers from the printed markup
of a typed node: tag names re-encoded through the tag grammar, attributes
and text verbatim. -/
def domOfView (st sp : Bool) : ViewNode → DomNode
  | .text data => .text data
  | .element k n p a cs => .element (tagNameOf st sp k n p) a (domOfViewList st sp cs)
  | .fragment cs => .fragment (domOfViewList st sp cs)

/-- List form of `domOfView`. -/
def domOfViewList (st sp : Bool) : List ViewNode → List DomNode
  | [] => []
  | c :: cs => domOfView st sp c :: domOfViewList st sp cs

end

/-- Rehydrating a dense (hole-free) range array succeeds and returns the
ranges. -/
theorem setRangesModel_map_some (l : List VRange) : setRangesModel (l.map some) = .ok l := by
  induction l with
  | nil => rfl
  | cons r rest ih => simp [setRangesModel, ih, bind, Except.bind]

/-- C2 (amended): the fragment-of-one elision of the tree builder applies to
a single generic child of any kind, which becomes the root of the result
after conversion; a generic fragment with zero or at least two children
becomes a typed fragment of the converted children. -/
theorem c2_fragment_of_one_elision (c : DomNode) (children : List DomNode)
    (h : children.length ≠ 1) :
    walkDom (DomNode.fragment [c]) = walkDom c ∧
    walkDom (DomNode.fragment children) = (walkDomList children).map ViewNode.fragment := by
  constructor
  · rfl
  · match children, h with
    | [], _ => rfl
    | [c1], h => exact absurd rfl h
    | c1 :: c2 :: rest, _ =>
        cases hw : walkDomList (c1 :: c2 :: rest) with
        | error e => simp [walkDom, hw, Except.map, bind, Except.bind]
        | ok vs => simp [walkDom, hw, Except.map, bind, Except.bind]

/-- C2 witness: elision of a single text child, and the fragment case at an
empty child list. -/
theorem c2_fragment_of_one_elision_witness :
    walkDom (DomNode.fragment [DomNode.text ['x']]) = walkDom (DomNode.text ['x']) ∧
    walkDom (DomNode.fragment []) = (walkDomList []).map ViewNode.fragment :=
  ⟨(c2_fragment_of_one_elision (DomNode.text ['x']) [] (by decide)).1,
   (c2_fragment_of_one_elision (DomNode.text ['x']) [] (by decide)).2⟩

/-- C2 counterexample: a generic fragment whose single child is a text node
does not become a typed fragment — it collapses to the text node itself. -/
theorem c2_single_text_child_collapses :
    walkDom (DomNode.fragment [DomNode.text ['x']]) = .ok (ViewNode.text ['x']) ∧
    walkDom (DomNode.fragment [DomNode.text ['x']]) ≠
      .ok (ViewNode.fragment [ViewNode.text ['x']]) := by
  constructor
  · rfl
  · decide

/-- C6 (confirmed): the four unbalanced inputs are rejected, and in general
the range builder rejects an end token on an empty slot, a start token on an
occupied slot, and a still-open slot at the end of the stream. -/
theorem c6_unbalanced_ranges :
    parse "<p>]text[</p>".data [] false = .error .unbalanced ∧
    parse "<p>[text</p>".data [] false = .error .unbalanced ∧
    parse "<p>te\x7bxt</p>".data [] false = .error .unbalanced ∧
    parse "<p>[<b>[x]</b>]</p>".data [] false = .error .unbalanced ∧
    (∀ (b : Char) (p : VPos) (rest : List PosItem),
      b = ELEMENT_RANGE_END_TOKEN ∨ b = TEXT_RANGE_END_TOKEN →
      createRangesAux none (⟨b, p⟩ :: rest) = .error .unbalanced) ∧
    (∀ (b : Char) (p : VPos) (r : VRange) (rest : List PosItem),
      b = ELEMENT_RANGE_START_TOKEN ∨ b = TEXT_RANGE_START_TOKEN →
      createRangesAux (some r) (⟨b, p⟩ :: rest) = .error .unbalanced) ∧
    (∀ r : VRange, createRangesAux (some r) [] = .error .unbalanced) := by
  refine ⟨by decide, by decide, by decide, by decide, ?_, ?_, ?_⟩
  · intro b p rest hb
    rcases hb with rfl | rfl <;>
      simp [createRangesAux, ELEMENT_RANGE_END_TOKEN, TEXT_RANGE_END_TOKEN]
  · intro b p r rest hb
    rcases hb with rfl | rfl <;>
      simp [createRangesAux, ELEMENT_RANGE_START_TOKEN, TEXT_RANGE_START_TOKEN]
  · intro r
    rfl

/-- C6 witness: the general slot rules at concrete tokens. -/
theorem c6_unbalanced_ranges_witness :
    createRangesAux none [⟨ELEMENT_RANGE_END_TOKEN, ⟨[], 0⟩⟩] = .error .unbalanced ∧
    createRangesAux (some ⟨⟨[], 0⟩, ⟨[], 0⟩⟩) [⟨TEXT_RANGE_START_TOKEN, ⟨[], 1⟩⟩] =
      .error .unbalanced ∧
    createRangesAux (some ⟨⟨[], 0⟩, ⟨[], 1⟩⟩) [] = .error .unbalanced :=
  ⟨c6_unbalanced_ranges.2.2.2.2.1 ELEMENT_RANGE_END_TOKEN ⟨[], 0⟩ [] (Or.inl rfl),
   c6_unbalanced_ranges.2.2.2.2.2.1 TEXT_RANGE_START_TOKEN ⟨[], 1⟩ ⟨⟨[], 0⟩, ⟨[], 0⟩⟩ []
     (Or.inr rfl),
   c6_unbalanced_ranges.2.2.2.2.2.2 ⟨⟨[], 0⟩, ⟨[], 1⟩⟩⟩

/-- The sort loop fails with the invalid-order error exactly when some
target index is out of the range array's bounds. -/
theorem sortRangesAux_invalid_iff (ranges : List VRange) (order : List Int)
    (idx : Nat) (acc : List (Option VRange)) :
    sortRangesAux ranges order idx acc = .error .invalidRangeOrder ↔
      ∃ np ∈ order, np - 1 < 0 ∨ np - 1 ≥ (ranges.length : Int) := by
  induction order generalizing idx acc with
  | nil => simp [sortRangesAux]
  | cons np rest ih =>
      simp only [sortRangesAux]
      split
      next hcond =>
        simp only [Bool.or_eq_true, decide_eq_true_eq] at hcond
        constructor
        · intro _; exact ⟨np, List.mem_cons_self np rest, hcond⟩
        · intro _; rfl
      next hcond =>
        simp only [Bool.or_eq_true, decide_eq_true_eq, not_or] at hcond
        rw [ih]
        constructor
        · rintro ⟨x, hx, h2⟩; exact ⟨x, List.mem_cons_of_mem _ hx, h2⟩
        · rintro ⟨x, hx, h2⟩
          rcases List.mem_cons.mp hx with rfl | hx'
          · exact absurd h2 (by omega)
          · exact ⟨x, hx', h2⟩

/-- The sort loop either succeeds or fails with the invalid-order error; no
other outcome exists. -/
theorem sortRangesAux_ok_or (ranges : List VRange) (order : List Int)
    (idx : Nat) (acc : List (Option VRange)) :
    (∃ l, sortRangesAux ranges order idx acc = .ok l) ∨
      sortRangesAux ranges order idx acc = .error .invalidRangeOrder := by
  induction order generalizing idx acc with
  | nil => exact Or.inl ⟨acc, rfl⟩
  | cons np rest ih =>
      simp only [sortRangesAux]
      split
      next hcond => exact Or.inr rfl
      next hcond => exact ih _ _

/-- C3 (amended): with a non-empty order option, parsing fails with the
count-mismatch error iff the order's length differs from the number of
ranges found; with matching lengths it fails with the invalid-order error
iff some target index lies outside `1..n`; otherwise it succeeds.  Duplicate
target indices are not detected. -/
theorem c3_order_validation (ranges : List VRange) (order : List Int) (h : order ≠ []) :
    (applyOrder ranges order = .error .rangeCountMismatch ↔ order.length ≠ ranges.length) ∧
    (applyOrder ranges order = .error .invalidRangeOrder ↔
      (order.length = ranges.length ∧ ∃ np ∈ order, np < 1 ∨ (ranges.length : Int) < np)) ∧
    ((∃ l, applyOrder ranges order = .ok l) ↔
      (order.length = ranges.length ∧ ∀ np ∈ order, 1 ≤ np ∧ np ≤ (ranges.length : Int))) := by
  have hlen : order.length ≠ 0 := by
    simpa [List.length_eq_zero] using h
  by_cases hc : order.length = ranges.length
  · have hA : applyOrder ranges order = sortRanges ranges order := by
      unfold applyOrder
      rw [if_pos hlen, if_neg (fun hh => hh hc)]
    rw [hA]
    have hbound : ∀ np : Int, (np - 1 < 0 ∨ np - 1 ≥ (ranges.length : Int)) ↔
        (np < 1 ∨ (ranges.length : Int) < np) := by
      intro np; omega
    refine ⟨?_, ?_, ?_⟩
    · constructor
      · intro hE
        rcases sortRangesAux_ok_or ranges order 0 [] with ⟨l, hl⟩ | hl
        · rw [sortRanges] at hE; rw [hl] at hE; exact absurd hE (by simp)
        · rw [sortRanges] at hE; rw [hl] at hE; exact absurd hE (by simp)
      · intro hne; exact absurd hc hne
    · rw [sortRanges, sortRangesAux_invalid_iff]
      constructor
      · intro ⟨np, hnp, hb⟩; exact ⟨hc, np, hnp, (hbound np).mp hb⟩
      · intro ⟨_, np, hnp, hb⟩; exact ⟨np, hnp, (hbound np).mpr hb⟩
    · rw [sortRanges]
      constructor
      · intro ⟨l, hl⟩
        refine ⟨hc, fun np hnp => ?_⟩
        by_contra hcon
        have hbad : np - 1 < 0 ∨ np - 1 ≥ (ranges.length : Int) := by omega
        have hE := (sortRangesAux_invalid_iff ranges order 0 []).mpr ⟨np, hnp, hbad⟩
        rw [hl] at hE; exact absurd hE (by simp)
      · intro ⟨_, hall⟩
        rcases sortRangesAux_ok_or ranges order 0 [] with hok | hE
        · exact hok
        · rcases (sortRangesAux_invalid_iff ranges order 0 []).mp hE with ⟨np, hnp, hb⟩
          have := hall np hnp
          omega
  · have hA : applyOrder ranges order = .error .rangeCountMismatch := by
      unfold applyOrder
      rw [if_pos hlen, if_pos hc]
    rw [hA]
    refine ⟨by simp [hc], ?_, ?_⟩
    · constructor
      · intro hE; exact absurd (Except.error.inj hE) (by simp)
      · intro ⟨heq, _⟩; exact absurd heq hc
    · constructor
      · intro ⟨l, hl⟩; exact absurd hl (by simp)
      · intro ⟨heq, _⟩; exact absurd heq hc

/-- C3 witness: a valid permutation on two ranges passes all checks. -/
theorem c3_order_validation_witness :
    (∃ l, applyOrder [⟨⟨[], 0⟩, ⟨[], 1⟩⟩, ⟨⟨[], 2⟩, ⟨[], 3⟩⟩] [2, 1] = .ok l) :=
  (c3_order_validation [⟨⟨[], 0⟩, ⟨[], 1⟩⟩, ⟨⟨[], 2⟩, ⟨[], 3⟩⟩] [2, 1] (by decide)).2.2.mpr
    (by refine ⟨rfl, fun np hnp => ?_⟩
        rcases List.mem_cons.mp hnp with rfl | hnp'
        · constructor <;> decide
        · rcases List.mem_cons.mp hnp' with rfl | hnp''
          · constructor <;> decide
          · simp at hnp'')

/-- C3 counterexample: a duplicated (in-range) target index is not rejected
with the invalid-order error — the loop silently overwrites the target slot
and returns a one-element array for two discovered ranges. -/
theorem c3_duplicate_order_not_rejected :
    applyOrder [⟨⟨[], 0⟩, ⟨[], 1⟩⟩, ⟨⟨[], 2⟩, ⟨[], 3⟩⟩] [1, 1] =
      .ok [some ⟨⟨[], 2⟩, ⟨[], 3⟩⟩] := by decide

/-- A successful range parse without an order option determines the parse
under any order option: the discovered ranges are fed to the order
application. -/
theorem rangeParserParse_nil_ok (view : ViewNode) (t : Option ViewNode)
    (rOpt : List (Option VRange)) (h : rangeParserParse view [] = .ok (t, rOpt)) :
    ∃ ranges : List VRange, rOpt = ranges.map some ∧
      ∀ order, rangeParserParse view order =
        (applyOrder ranges order).bind (fun s => .ok (t, s)) := by
  unfold rangeParserParse at h ⊢
  simp only [bind, Except.bind] at h ⊢
  cases hg : getPosRoot view with
  | error e => rw [hg] at h; simp at h
  | ok tp =>
      obtain ⟨t', ps⟩ := tp
      rw [hg] at h
      simp only [] at h
      cases hcr : createRanges ps with
      | error e => rw [hcr] at h; simp at h
      | ok ranges =>
          rw [hcr] at h
          simp only [] at h
          have hao : applyOrder ranges [] = .ok (ranges.map some) := by
            simp [applyOrder]
          rw [hao] at h
          simp only [] at h
          have ht : t' = t := (Prod.mk.inj (Except.ok.inj h)).1
          subst ht
          refine ⟨ranges, (Prod.mk.inj (Except.ok.inj h)).2.symm, ?_⟩
          intro order
          cases hA : applyOrder ranges order with
          | error e => simp [hcr, hA, Except.bind]
          | ok s => simp [hcr, hA, Except.bind]

/-- C4 (confirmed): on an input whose parse discovers exactly two range
marker pairs, the order option `[2, 1]` yields a selection whose index-0
range is the second discovered range and whose index-1 range is the first. -/
theorem c4_order_swaps_two_ranges (data : Str) (v : ViewNode) (r1 r2 : VRange) (backward : Bool)
    (h : parse data [] backward = .ok (.withSelection v ⟨[r1, r2], backward⟩)) :
    parse data [2, 1] backward = .ok (.withSelection v ⟨[r2, r1], backward⟩) := by
  unfold parse at h ⊢
  cases hd : toDom data with
  | none => rw [hd] at h; simp [bind, Except.bind] at h
  | some dom =>
      rw [hd] at h
      simp only [bind, Except.bind] at h ⊢
      cases hw : walkDom dom with
      | error e => rw [hw] at h; simp at h
      | ok view =>
          rw [hw] at h
          simp only [] at h ⊢
          cases hr : rangeParserParse view [] with
          | error e => rw [hr] at h; simp at h
          | ok tr =>
              obtain ⟨t, rOpt⟩ := tr
              rw [hr] at h
              simp only [] at h
              obtain ⟨ranges, hmap, hall⟩ := rangeParserParse_nil_ok view t rOpt hr
              subst hmap
              cases t with
              | none => simp at h
              | some v' =>
                  simp only [] at h
                  cases ranges with
                  | nil => simp at h
                  | cons a as =>
                      cases as with
                      | nil =>
                          rw [setRangesModel_map_some] at h
                          simp at h
                      | cons b bs =>
                          cases bs with
                          | cons c cs =>
                              rw [setRangesModel_map_some] at h
                              simp at h
                          | nil =>
                              rw [setRangesModel_map_some] at h
                              simp only [List.length_cons, List.map_cons, List.map_nil] at h
                              simp at h
                              obtain ⟨hv, ha, hb⟩ := h
                              subst hv ha hb
                              have h21 : ∀ x y : VRange,
                                  applyOrder [x, y] [2, 1] = .ok [some y, some x] := by
                                intro x y
                                simp [applyOrder, sortRanges, sortRangesAux, jsArraySet, List.set]
                              rw [hall [2, 1], h21]
                              simp [setRangesModel, bind, Except.bind]

/-- C4 witness: two marker pairs in document order, reordered by `[2, 1]`. -/
theorem c4_order_swaps_two_ranges_witness :
    parse "<p>[a]</p><p>\x7bb\x7d</p>".data [2, 1] false =
      .ok (.withSelection
        (ViewNode.fragment [ViewNode.element .plain ['p'] 10 [] [.text ['a']],
                            ViewNode.element .plain ['p'] 10 [] [.text ['b']]])
        ⟨[⟨⟨[1, 0], 0⟩, ⟨[1, 0], 1⟩⟩, ⟨⟨[0], 0⟩, ⟨[0], 1⟩⟩], false⟩) :=
  c4_order_swaps_two_ranges "<p>[a]</p><p>\x7bb\x7d</p>".data
    (ViewNode.fragment [ViewNode.element .plain ['p'] 10 [] [.text ['a']],
                        ViewNode.element .plain ['p'] 10 [] [.text ['b']]])
    ⟨⟨[0], 0⟩, ⟨[0], 1⟩⟩ ⟨⟨[1, 0], 0⟩, ⟨[1, 0], 1⟩⟩ false (by decide)

/-- Splitting a colon-free string yields the single segment. -/
theorem splitOnColon_no_colon (xs : Str) (h : ':' ∉ xs) : splitOnColon xs = [xs] := by
  induction xs with
  | nil => rfl
  | cons c rest ih =>
      have hc : c ≠ ':' := fun hh => h (hh ▸ List.mem_cons_self c rest)
      have hr : ':' ∉ rest := fun hh => h (List.mem_cons_of_mem _ hh)
      simp only [splitOnColon, if_neg hc, ih hr]

/-- Splitting consumes the first colon after a colon-free prefix. -/
theorem splitOnColon_append (xs ys : Str) (h : ':' ∉ xs) :
    splitOnColon (xs ++ ':' :: ys) = xs :: splitOnColon ys := by
  induction xs with
  | nil => simp [splitOnColon]
  | cons c rest ih =>
      have hc : c ≠ ':' := fun hh => h (hh ▸ List.mem_cons_self c rest)
      have hr : ':' ∉ rest := fun hh => h (List.mem_cons_of_mem _ hh)
      simp only [List.cons_append, splitOnColon, if_neg hc, List.append_eq, ih hr]

/-- C5 (amended): for a two-segment tag name `A:B` whose first segment is
neither `container` nor `attribute`, decoding yields an attribute element
with name `A` (lowercased) and priority `parseInt(B)` exactly when `B` has a
parseable integer prefix (optional sign followed by at least one decimal
digit, everything after the prefix being ignored, so `b:10px` gives priority
10 and `b:1.5` gives 1), and fails with the tag-grammar error carrying the
lowercased raw tag text exactly when `B` has no such prefix (e.g. `b:c`). -/
theorem c5_two_segment_tag_decoding (A B : Str)
    (hA : ':' ∉ A.map Char.toLower) (hB : ':' ∉ B.map Char.toLower)
    (hAc : A.map Char.toLower ≠ "container".data)
    (hAa : A.map Char.toLower ≠ "attribute".data) :
    (∀ p : Int,
      convertElementName (A ++ ':' :: B) =
          .ok ⟨A.map Char.toLower, some EKind.attribute, some p⟩ ↔
        jsParseInt (B.map Char.toLower) = some p) ∧
    (convertElementName (A ++ ':' :: B) =
        .error (.tagGrammar ((A ++ ':' :: B).map Char.toLower)) ↔
      jsParseInt (B.map Char.toLower) = none) := by
  have hlow : (A ++ ':' :: B).map Char.toLower =
      A.map Char.toLower ++ ':' :: B.map Char.toLower := by
    rw [List.map_append, List.map_cons]
    have hcl : ':'.toLower = ':' := by decide
    rw [hcl]
  have hsplit : splitOnColon ((A ++ ':' :: B).map Char.toLower) =
      [A.map Char.toLower, B.map Char.toLower] := by
    rw [hlow, splitOnColon_append _ _ hA, splitOnColon_no_colon _ hB]
  have hty : convertType (A.map Char.toLower) = none := by
    simp [convertType, hAc, hAa]
  simp only [convertElementName]
  rw [hsplit]
  simp only [hty, convertPriority]
  cases hj : jsParseInt (B.map Char.toLower) with
  | some pr =>
      constructor
      · intro p
        constructor
        · intro hh
          have hinj := Except.ok.inj hh
          have hp : pr = p := by
            have h2 := congrArg TagInfo.priority hinj
            simpa using h2
          rw [hp]
        · intro hh
          have hpp : pr = p := Option.some.inj hh
          subst hpp
          rfl
      · constructor
        · intro hh; exact absurd hh (by simp)
        · intro hh; simp at hh
  | none =>
      constructor
      · intro p
        constructor
        · intro hh; exact absurd hh (by simp)
        · intro hh; simp at hh
      · constructor
        · intro _; rfl
        · intro _; rw [hlow]

/-- C5 witness: `b:5px` decodes to priority 5, `b:c` is a grammar error. -/
theorem c5_two_segment_tag_decoding_witness :
    (convertElementName ("b".data ++ ':' :: "5px".data) =
        .ok ⟨"b".data.map Char.toLower, some EKind.attribute, some 5⟩ ↔
      jsParseInt ("5px".data.map Char.toLower) = some 5) ∧
    (convertElementName ("b".data ++ ':' :: "c".data) =
        .error (.tagGrammar (("b".data ++ ':' :: "c".data).map Char.toLower)) ↔
      jsParseInt ("c".data.map Char.toLower) = none) :=
  ⟨(c5_two_segment_tag_decoding "b".data "5px".data (by decide) (by decide)
      (by decide) (by decide)).1 5,
   (c5_two_segment_tag_decoding "b".data "c".data (by decide) (by decide)
      (by decide) (by decide)).2⟩

/-- C5 counterexample: `b:10px` and `b:1.5` do not fail with the tag-grammar
error — `parseInt` accepts the digit prefix, yielding priorities 10 and 1. -/
theorem c5_nonintegral_priority_not_rejected :
    convertElementName "b:10px".data = .ok ⟨['b'], some EKind.attribute, some 10⟩ ∧
    convertElementName "b:1.5".data = .ok ⟨['b'], some EKind.attribute, some 1⟩ ∧
    convertElementName "b:10px".data ≠ .error (.tagGrammar "b:10px".data) := by
  refine ⟨by decide, by decide, by decide⟩
/-- Classification fails with the marker-placement error whenever some
recorded bracket is an element token strictly inside non-empty stripped
text, or a text token in an emptied text node. -/
theorem classifyBrackets_error_of_offender (items : List (Char × Nat)) (stripped : Str)
    (tp pp : List Nat) (idx : Nat)
    (hex : ∃ bt ∈ items,
      if stripped ≠ [] then
        ¬(bt.1 = TEXT_RANGE_START_TOKEN ∨ bt.1 = TEXT_RANGE_END_TOKEN) ∧
          bt.2 ≠ 0 ∧ bt.2 ≠ stripped.length
      else (bt.1 = TEXT_RANGE_START_TOKEN ∨ bt.1 = TEXT_RANGE_END_TOKEN)) :
    classifyBrackets items stripped tp pp idx = .error .markerPlacement := by
  induction items with
  | nil => simp at hex
  | cons bt rest ih =>
      obtain ⟨x, hx, hoff⟩ := hex
      rcases List.mem_cons.mp hx with rfl | hx'
      · -- head is the offender
        obtain ⟨b, t⟩ := x
        by_cases hs : stripped ≠ []
        · rw [if_pos hs] at hoff
          obtain ⟨hnt, ht0, htl⟩ := hoff
          have hbt : (decide (b = TEXT_RANGE_START_TOKEN) ||
              decide (b = TEXT_RANGE_END_TOKEN)) = false := by
            simp only [Bool.or_eq_false_iff, decide_eq_false_iff_not]
            exact ⟨fun hh => hnt (Or.inl hh), fun hh => hnt (Or.inr hh)⟩
          have hin : (decide (t ≠ 0) && decide (t ≠ stripped.length)) = true := by
            simp [ht0, htl]
          simp only [classifyBrackets, if_pos hs, hbt, hin, bind, Except.bind]
          simp
        · rw [if_neg hs] at hoff
          have hbt : (decide (b = TEXT_RANGE_START_TOKEN) ||
              decide (b = TEXT_RANGE_END_TOKEN)) = true := by
            rcases hoff with hh | hh <;> simp only [] at hh <;> simp [hh]
          simp only [classifyBrackets, if_neg hs, hbt, bind, Except.bind]
          simp
      · -- offender in the tail
        obtain ⟨b, t⟩ := bt
        have htl := ih ⟨x, hx', hoff⟩
        by_cases hs : stripped ≠ []
        · by_cases hbt : (decide (b = TEXT_RANGE_START_TOKEN) ||
              decide (b = TEXT_RANGE_END_TOKEN)) = true
          · simp only [classifyBrackets, if_pos hs, hbt, bind, Except.bind]
            simp [htl]
          · have hbt' : (decide (b = TEXT_RANGE_START_TOKEN) ||
                decide (b = TEXT_RANGE_END_TOKEN)) = false := by
              simpa using hbt
            by_cases hin : (decide (t ≠ 0) && decide (t ≠ stripped.length)) = true
            · simp only [classifyBrackets, if_pos hs, hbt', hin, bind, Except.bind]
              simp
            · have hin' : (decide (t ≠ 0) && decide (t ≠ stripped.length)) = false := by
                simpa using hin
              simp only [classifyBrackets, if_pos hs, hbt', hin', bind, Except.bind]
              simp [htl]
        · by_cases hbt : (decide (b = TEXT_RANGE_START_TOKEN) ||
              decide (b = TEXT_RANGE_END_TOKEN)) = true
          · simp only [classifyBrackets, if_neg hs, hbt, bind, Except.bind]
            simp
          · have hbt' : (decide (b = TEXT_RANGE_START_TOKEN) ||
                decide (b = TEXT_RANGE_END_TOKEN)) = false := by
              simpa using hbt
            simp only [classifyBrackets, if_neg hs, hbt', bind, Except.bind]
            simp [htl]

/-- The text-node scan fails with the marker-placement error whenever an
offending bracket was recorded. -/
theorem scanText_error_of_offender (data : Str) (pp : List Nat) (idx : Nat)
    (hex : ∃ bt ∈ collectBrackets data 0 0,
      if data.filter (fun c => !isScanToken c) ≠ [] then
        ¬(bt.1 = TEXT_RANGE_START_TOKEN ∨ bt.1 = TEXT_RANGE_END_TOKEN) ∧
          bt.2 ≠ 0 ∧ bt.2 ≠ (data.filter (fun c => !isScanToken c)).length
      else (bt.1 = TEXT_RANGE_START_TOKEN ∨ bt.1 = TEXT_RANGE_END_TOKEN)) :
    scanText data pp idx = .error .markerPlacement := by
  unfold scanText
  have hcl := classifyBrackets_error_of_offender (collectBrackets data 0 0)
    (data.filter (fun c => !isScanToken c)) (pp ++ [idx]) pp idx hex
  simp only [bind, Except.bind, hcl]

mutual

/-- The scan phase never keeps an empty text node. -/
theorem getPosNode_noEmptyText : ∀ (v : ViewNode) (pp : List Nat) (i : Nat)
    (v' : ViewNode) (ps : List PosItem),
    getPosNode v pp i = .ok (some v', ps) → NoEmptyText v' = true
  | .text data, pp, i, v', ps, h => by
      unfold getPosNode scanText at h
      simp only [bind, Except.bind] at h
      cases hcl : classifyBrackets (collectBrackets data 0 0)
          (data.filter (fun c => !isScanToken c)) (pp ++ [i]) pp i with
      | error e => rw [hcl] at h; simp at h
      | ok ps0 =>
          rw [hcl] at h
          simp only [] at h
          by_cases hs : data.filter (fun c => !isScanToken c) = []
          · rw [if_pos hs] at h; simp at h
          · rw [if_neg hs] at h
            simp at h
            obtain ⟨hv, _⟩ := h
            rw [← hv]
            simp [NoEmptyText, hs]
  | .element k n p a cs, pp, i, v', ps, h => by
      unfold getPosNode at h
      simp only [bind, Except.bind] at h
      cases hcd : getPosChildren cs (pp ++ [i]) 0 with
      | error e => rw [hcd] at h; simp at h
      | ok cp =>
          obtain ⟨cs', ps0⟩ := cp
          rw [hcd] at h
          simp at h
          obtain ⟨hv, _⟩ := h
          rw [← hv]
          simp only [NoEmptyText]
          exact getPosChildren_noEmptyText cs (pp ++ [i]) 0 cs' ps0 hcd
  | .fragment cs, pp, i, v', ps, h => by
      unfold getPosNode at h
      simp only [bind, Except.bind] at h
      cases hcd : getPosChildren cs (pp ++ [i]) 0 with
      | error e => rw [hcd] at h; simp at h
      | ok cp =>
          obtain ⟨cs', ps0⟩ := cp
          rw [hcd] at h
          simp at h
          obtain ⟨hv, _⟩ := h
          rw [← hv]
          simp only [NoEmptyText]
          exact getPosChildren_noEmptyText cs (pp ++ [i]) 0 cs' ps0 hcd

/-- List form of the empty-text preservation argument. -/
theorem getPosChildren_noEmptyText : ∀ (cs : List ViewNode) (sp : List Nat) (k : Nat)
    (cs' : List ViewNode) (ps : List PosItem),
    getPosChildren cs sp k = .ok (cs', ps) → NoEmptyTextList cs' = true
  | [], sp, k, cs', ps, h => by
      unfold getPosChildren at h
      simp at h
      obtain ⟨h1, _⟩ := h
      subst h1
      rfl
  | c :: cs, sp, k, cs', ps, h => by
      unfold getPosChildren at h
      simp only [bind, Except.bind] at h
      cases hc1 : getPosNode c sp k with
      | error e => rw [hc1] at h; simp at h
      | ok co =>
          obtain ⟨co', ps1⟩ := co
          rw [hc1] at h
          simp only [] at h
          cases co' with
          | some ckept =>
              cases hc2 : getPosChildren cs sp (k + 1) with
              | error e => rw [hc2] at h; simp at h
              | ok c2 =>
                  obtain ⟨cs2, ps2⟩ := c2
                  rw [hc2] at h
                  simp at h
                  obtain ⟨hv, _⟩ := h
                  rw [← hv]
                  simp only [NoEmptyTextList, Bool.and_eq_true]
                  exact ⟨getPosNode_noEmptyText c sp k ckept ps1 hc1,
                         getPosChildren_noEmptyText cs sp (k + 1) cs2 ps2 hc2⟩
          | none =>
              cases hc2 : getPosChildren cs sp k with
              | error e => rw [hc2] at h; simp at h
              | ok c2 =>
                  obtain ⟨cs2, ps2⟩ := c2
                  rw [hc2] at h
                  simp at h
                  obtain ⟨hv, _⟩ := h
                  rw [← hv]
                  exact getPosChildren_noEmptyText cs sp k cs2 ps2 hc2

end

/-- C7 (confirmed): an element-boundary token strictly inside non-empty
stripped text fails the scan with the marker-placement error; a
text-boundary token in an emptied text node does the same; a text node
whose stripped content is empty never survives into the parsed tree; and
the three concrete parses behave accordingly (`"[]"` leaves no empty text
node behind). -/
theorem c7_marker_placement_and_elision :
    (∀ (data : Str) (pp : List Nat) (idx : Nat) (b : Char) (t : Nat),
      (b, t) ∈ collectBrackets data 0 0 →
      b = ELEMENT_RANGE_START_TOKEN ∨ b = ELEMENT_RANGE_END_TOKEN →
      data.filter (fun c => !isScanToken c) ≠ [] →
      t ≠ 0 → t ≠ (data.filter (fun c => !isScanToken c)).length →
      scanText data pp idx = .error .markerPlacement) ∧
    (∀ (data : Str) (pp : List Nat) (idx : Nat) (b : Char) (t : Nat),
      (b, t) ∈ collectBrackets data 0 0 →
      b = TEXT_RANGE_START_TOKEN ∨ b = TEXT_RANGE_END_TOKEN →
      data.filter (fun c => !isScanToken c) = [] →
      scanText data pp idx = .error .markerPlacement) ∧
    (∀ (v v' : ViewNode) (ps : List PosItem),
      getPosRoot v = .ok (some v', ps) → NoEmptyText v' = true) ∧
    parse "<p>a[b</p>".data [] false = .error .markerPlacement ∧
    parse "<p>\x7b\x7d</p>".data [] false = .error .markerPlacement ∧
    parse "<p>[]</p>".data [] false =
      .ok (.withSelection (ViewNode.element .plain ['p'] 10 [] [])
          ⟨[⟨⟨[], 0⟩, ⟨[], 0⟩⟩], false⟩) := by
  refine ⟨?_, ?_, ?_, by decide, by decide, by decide⟩
  · intro data pp idx b t hmem hb hne ht0 htl
    apply scanText_error_of_offender
    refine ⟨(b, t), hmem, ?_⟩
    rw [if_pos hne]
    refine ⟨?_, ht0, htl⟩
    rcases hb with rfl | rfl <;> simp only [] <;> decide
  · intro data pp idx b t hmem hb he
    apply scanText_error_of_offender
    refine ⟨(b, t), hmem, ?_⟩
    rw [if_neg (fun hh => hh he)]
    exact hb
  · intro v v' ps h
    cases v with
    | text data =>
        unfold getPosRoot at h
        simp only [] at h
        by_cases hc : collectBrackets data 0 0 = []
        · rw [if_pos hc] at h
          by_cases hd : data = []
          · rw [if_pos hd] at h; simp at h
          · rw [if_neg hd] at h
            simp at h
            obtain ⟨hv, _⟩ := h
            rw [← hv]
            simp [NoEmptyText, hd]
        · rw [if_neg hc] at h; simp at h
    | element k n p a cs =>
        unfold getPosRoot at h
        simp only [bind, Except.bind] at h
        cases hcd : getPosChildren cs [] 0 with
        | error e => rw [hcd] at h; simp at h
        | ok cp =>
            obtain ⟨cs', ps0⟩ := cp
            rw [hcd] at h
            simp at h
            obtain ⟨hv, _⟩ := h
            rw [← hv]
            simp only [NoEmptyText]
            exact getPosChildren_noEmptyText cs [] 0 cs' ps0 hcd
    | fragment cs =>
        unfold getPosRoot at h
        simp only [bind, Except.bind] at h
        cases hcd : getPosChildren cs [] 0 with
        | error e => rw [hcd] at h; simp at h
        | ok cp =>
            obtain ⟨cs', ps0⟩ := cp
            rw [hcd] at h
            simp at h
            obtain ⟨hv, _⟩ := h
            rw [← hv]
            simp only [NoEmptyText]
            exact getPosChildren_noEmptyText cs [] 0 cs' ps0 hcd

/-- C7 witness: concrete instances of the three general statements. -/
theorem c7_marker_placement_and_elision_witness :
    scanText "a[b".data [] 0 = .error .markerPlacement ∧
    scanText "\x7b\x7d".data [] 0 = .error .markerPlacement ∧
    NoEmptyText (ViewNode.element .plain ['p'] 10 [] []) = true :=
  ⟨c7_marker_placement_and_elision.1 "a[b".data [] 0 '[' 1 (by decide) (Or.inl rfl)
      (by decide) (by decide) (by decide),
   c7_marker_placement_and_elision.2.1 "\x7b\x7d".data [] 0 '\x7b' 0 (by decide)
      (Or.inl rfl) (by decide),
   c7_marker_placement_and_elision.2.2.1
      (ViewNode.element .plain ['p'] 10 [] [ViewNode.text "[]".data])
      (ViewNode.element .plain ['p'] 10 [] [])
      [⟨'[', ⟨[], 0⟩⟩, ⟨']', ⟨[], 0⟩⟩] (by decide)⟩

/-- The element-range fold appends, per bucket, exactly the filtered token
chunks of the traversed ranges, in range order. -/
theorem foldl_elementRangeStep (path : List Nat) (offset : Nat) (rs : List VRange) :
    ∀ s e c : Str,
    rs.foldl (elementRangeStep path offset) (s, e, c) =
      (s ++ elemStartTokensAt rs path offset,
       e ++ elemEndTokensAt rs path offset,
       c ++ elemCollapsedTokensAt rs path offset) := by
  induction rs with
  | nil =>
      intro s e c
      simp [elemStartTokensAt, elemEndTokensAt, elemCollapsedTokensAt]
  | cons r rs ih =>
      intro s e c
      by_cases h1 : r.start.parentPath = path <;>
      by_cases h2 : r.start.offset = offset <;>
      by_cases h3 : r.start = r.stop <;>
      by_cases h4 : r.stop.parentPath = path <;>
      by_cases h5 : r.stop.offset = offset <;>
        simp [List.foldl_cons, elementRangeStep, VRange.isCollapsed,
              elemStartTokensAt, elemEndTokensAt, elemCollapsedTokensAt,
              List.filter_cons, h1, h2, h3, h4, h5, ih]

/-- The element-range printer emits end tokens, then collapsed pairs, then
start tokens. -/
theorem stringifyElementRanges_eq (ranges : List VRange) (path : List Nat) (offset : Nat) :
    stringifyElementRanges ranges path offset =
      elemEndTokensAt ranges path offset ++ elemCollapsedTokensAt ranges path offset ++
        elemStartTokensAt ranges path offset := by
  unfold stringifyElementRanges
  rw [foldl_elementRangeStep]
  simp

/-- Updating a cell preserves the cell count. -/
theorem updSlot_length (res : List TextSlot) (i : Nat) (f : TextSlot → TextSlot) :
    (updSlot res i f).length = res.length := by
  unfold updSlot
  cases hg : res.get? i with
  | none => rfl
  | some s => simp

/-- Reading back an updated cell list. -/
theorem updSlot_get? (res : List TextSlot) (i : Nat) (f : TextSlot → TextSlot) (o : Nat) :
    (updSlot res i f).get? o =
      if i = o then (res.get? o).map f else res.get? o := by
  unfold updSlot
  cases hg : res.get? i with
  | none =>
      by_cases hio : i = o
      · subst hio
        simp only [List.get?_eq_getElem?] at hg ⊢
        simp [hg]
      · simp [hio]
  | some s =>
      have hlt : i < res.length := by
        by_contra hcon
        rw [List.get?_eq_none.mpr (Nat.le_of_not_lt hcon)] at hg
        exact Option.noConfusion hg
      rw [List.get?_set_of_lt' _ _ hlt]
      by_cases hio : i = o
      · subst hio
        simp only [List.get?_eq_getElem?] at hg ⊢
        simp [hg]
      · simp [hio]

/-- One range step preserves the cell count. -/
theorem textRangeStep_length (path : List Nat) (len : Nat) (res : List TextSlot) (r : VRange) :
    (textRangeStep path len res r).length = res.length := by
  simp only [textRangeStep]
  split_ifs <;> simp [updSlot_length]

/-- Reading back an updated cell list, index-notation form. -/
theorem updSlot_getElem? (res : List TextSlot) (i : Nat) (f : TextSlot → TextSlot) (o : Nat) :
    (updSlot res i f)[o]? = if i = o then (res[o]?).map f else res[o]? := by
  have h := updSlot_get? res i f o
  simpa [List.get?_eq_getElem?] using h

/-- One range contributes its guarded start, end and collapsed tokens to
the cell at each offset. -/
theorem textRangeStep_get? (path : List Nat) (len : Nat) (res : List TextSlot) (r : VRange)
    (o : Nat) (ho : o ≤ len) :
    (textRangeStep path len res r).get? o =
      (res.get? o).map (fun s =>
        ⟨s.letter,
         s.startS ++ (if r.start.parentPath = path && r.start.offset = o && !r.isCollapsed
                      then [TEXT_RANGE_START_TOKEN] else []),
         s.endS ++ (if r.stop.parentPath = path && r.stop.offset = o && !r.isCollapsed
                    then [TEXT_RANGE_END_TOKEN] else []),
         s.collapsedS ++ (if r.start.parentPath = path && r.start.offset = o && r.isCollapsed
                          then [TEXT_RANGE_START_TOKEN, TEXT_RANGE_END_TOKEN] else [])⟩) := by
  by_cases h3 : r.start = r.stop
  · have hcol : r.isCollapsed = true := by simp [VRange.isCollapsed, h3]
    simp only [textRangeStep, hcol]
    rw [← h3]
    by_cases h1 : r.start.parentPath = path <;>
    by_cases h2 : r.start.offset ≤ len <;>
    by_cases h6 : r.start.offset = o <;>
      simp [updSlot_getElem?, h1, h2, h6, ho, hcol] <;>
      first
        | omega
        | (cases hgo : res[o]? <;> simp [hgo])
  · have hcol : r.isCollapsed = false := by simp [VRange.isCollapsed, h3]
    simp only [textRangeStep, hcol]
    by_cases h1 : r.start.parentPath = path <;>
    by_cases h2 : r.start.offset ≤ len <;>
    by_cases h4 : r.stop.parentPath = path <;>
    by_cases h5 : r.stop.offset ≤ len <;>
    by_cases h6 : r.start.offset = o <;>
    by_cases h7 : r.stop.offset = o <;>
      simp [updSlot_getElem?, h1, h2, h4, h5, h6, h7, ho, hcol] <;>
      first
        | omega
        | (cases hgo : res[o]? <;> simp [hgo])

/-- The text-range fold appends, per cell and per bucket, exactly the
filtered token chunks of the traversed ranges, in range order. -/
theorem foldl_textRangeStep_getElem? (path : List Nat) (len : Nat) (rs : List VRange) :
    ∀ (init : List TextSlot) (o : Nat), o ≤ len →
    (rs.foldl (textRangeStep path len) init)[o]? =
      (init[o]?).map (fun s =>
        ⟨s.letter,
         s.startS ++ textStartTokensAt rs path o,
         s.endS ++ textEndTokensAt rs path o,
         s.collapsedS ++ textCollapsedTokensAt rs path o⟩) := by
  induction rs with
  | nil =>
      intro init o ho
      simp only [List.foldl_nil, textStartTokensAt, textEndTokensAt, textCollapsedTokensAt,
        List.filter_nil, List.map_nil, List.flatten_nil, List.append_nil]
      cases init[o]? <;> simp
  | cons r rs ih =>
      intro init o ho
      rw [List.foldl_cons, ih (textRangeStep path len init r) o ho]
      have hstep := textRangeStep_get? path len init r o ho
      simp only [List.get?_eq_getElem?] at hstep
      rw [hstep]
      cases hgo : init[o]? with
      | none => simp
      | some s =>
          simp only [Option.map_some']
          by_cases c1 : (r.start.parentPath = path && r.start.offset = o && !r.isCollapsed) = true <;>
          by_cases c2 : (r.stop.parentPath = path && r.stop.offset = o && !r.isCollapsed) = true <;>
          by_cases c3 : (r.start.parentPath = path && r.start.offset = o && r.isCollapsed) = true <;>
            simp [textStartTokensAt, textEndTokensAt, textCollapsedTokensAt, List.filter_cons,
                  c1, c2, c3]

/-- The text-range fold preserves the cell count. -/
theorem foldl_textRangeStep_length (path : List Nat) (len : Nat) (rs : List VRange) :
    ∀ init : List TextSlot,
    (rs.foldl (textRangeStep path len) init).length = init.length := by
  induction rs with
  | nil => intro init; rfl
  | cons r rs ih => intro init; rw [List.foldl_cons, ih, textRangeStep_length]

/-- One cell per character plus the trailing cell. -/
theorem initSlots_length (data : Str) : (initSlots data).length = data.length + 1 := by
  simp [initSlots]

/-- The initial cells carry the single letters and empty buckets. -/
theorem initSlots_getElem? (data : Str) (o : Nat) (ho : o ≤ data.length) :
    (initSlots data)[o]? = some ⟨(data.drop o).take 1, [], [], []⟩ := by
  unfold initSlots
  rw [List.getElem?_append]
  rcases Nat.lt_or_ge o data.length with h | h
  · rw [if_pos (by simpa using h), List.getElem?_map]
    rw [List.getElem?_eq_getElem h]
    simp only [Option.map_some', Option.some.injEq]
    have ht : List.take 1 (List.drop o data) = [data[o]] := by
      rw [List.drop_eq_getElem_cons h, List.take_succ_cons, List.take_zero]
    rw [ht]
  · have ho' : o = data.length := Nat.le_antisymm ho h
    subst ho'
    rw [if_neg (by simp)]
    simp [List.drop_length]

/-- The text printer emits, at every character offset, end tokens, then
collapsed pairs, then start tokens, then the letter. -/
theorem stringifyTextRanges_eq (ranges : List VRange) (path : List Nat) (data : Str) :
    stringifyTextRanges ranges path data =
      ((List.range (data.length + 1)).map (fun o =>
        textEndTokensAt ranges path o ++ textCollapsedTokensAt ranges path o ++
        textStartTokensAt ranges path o ++ (data.drop o).take 1)).flatten := by
  unfold stringifyTextRanges
  have hslots : ranges.foldl (textRangeStep path data.length) (initSlots data) =
      (List.range (data.length + 1)).map (fun o =>
        (⟨(data.drop o).take 1, textStartTokensAt ranges path o,
          textEndTokensAt ranges path o, textCollapsedTokensAt ranges path o⟩ : TextSlot)) := by
    apply List.ext_getElem?
    intro n
    by_cases hn : n ≤ data.length
    · rw [foldl_textRangeStep_getElem? path data.length ranges (initSlots data) n hn,
          initSlots_getElem? data n hn]
      rw [List.getElem?_map, List.getElem?_range (by omega)]
      simp only [Option.map_some', List.nil_append]
    · have h1 : (ranges.foldl (textRangeStep path data.length) (initSlots data)).length =
          data.length + 1 := by
        rw [foldl_textRangeStep_length, initSlots_length]
      rw [List.getElem?_eq_none (by omega), List.getElem?_eq_none (by simp; omega)]
  rw [hslots]
  simp only [List.map_map]
  rfl

/-- C8 (confirmed): at every container offset and at every character offset
of a text node, the stringifier emits, in this fixed order, all end tokens
of non-collapsed ranges ending there, then all open+close pairs of ranges
collapsed there, then all start tokens of non-collapsed ranges starting
there. -/
theorem c8_token_emission_order :
    (∀ (ranges : List VRange) (path : List Nat) (offset : Nat),
      stringifyElementRanges ranges path offset =
        elemEndTokensAt ranges path offset ++ elemCollapsedTokensAt ranges path offset ++
          elemStartTokensAt ranges path offset) ∧
    (∀ (ranges : List VRange) (path : List Nat) (data : Str),
      stringifyTextRanges ranges path data =
        ((List.range (data.length + 1)).map (fun o =>
          textEndTokensAt ranges path o ++ textCollapsedTokensAt ranges path o ++
          textStartTokensAt ranges path o ++ (data.drop o).take 1)).flatten) :=
  ⟨stringifyElementRanges_eq, stringifyTextRanges_eq⟩

/-- Concatenating the per-offset letter cells reproduces the text. -/
theorem flatten_letter_cells (data : Str) :
    ((List.range (data.length + 1)).map (fun j => (data.drop j).take 1)).flatten = data := by
  induction data with
  | nil => rfl
  | cons c cs ih =>
      rw [List.length_cons, List.range_succ_eq_map]
      simp only [List.map_cons, List.map_map, List.flatten_cons]
      have hcomp : ((fun j => (List.drop j (c :: cs)).take 1) ∘ Nat.succ) =
          (fun j => (List.drop j cs).take 1) := by
        funext j
        simp [List.drop_succ_cons]
      rw [hcomp]
      simpa using ih

/-- Concatenating the letter cells with one insertion at offset `o` splices
the inserted string into the text at `o`. -/
theorem flatten_insert_cells (data : Str) :
    ∀ (o : Nat), o ≤ data.length → ∀ (ins : Str),
    ((List.range (data.length + 1)).map (fun j =>
        (if j = o then ins else []) ++ (data.drop j).take 1)).flatten =
      data.take o ++ ins ++ data.drop o := by
  induction data with
  | nil =>
      intro o ho ins
      have ho0 : o = 0 := by simpa using ho
      subst ho0
      simp [List.range_succ]
  | cons c cs ih =>
      intro o ho ins
      rw [List.length_cons, List.range_succ_eq_map]
      simp only [List.map_cons, List.map_map, List.flatten_cons]
      cases o with
      | zero =>
          simp only [if_pos rfl]
          have hcomp : ((fun j => (if j = 0 then ins else []) ++ (List.drop j (c :: cs)).take 1)
              ∘ Nat.succ) = (fun j => (List.drop j cs).take 1) := by
            funext j
            simp [List.drop_succ_cons]
          rw [hcomp, flatten_letter_cells]
          simp
      | succ o' =>
          have ho' : o' ≤ cs.length := by simpa using ho
          simp only [show (0 : Nat) ≠ o' + 1 from by omega, if_neg]
          have hcomp : ((fun j => (if j = o' + 1 then ins else []) ++
              (List.drop j (c :: cs)).take 1) ∘ Nat.succ) =
              (fun j => (if j = o' then ins else []) ++ (List.drop j cs).take 1) := by
            funext j
            simp [List.drop_succ_cons, Nat.succ_inj]
          rw [hcomp, ih o' ho' ins]
          simp

/-- C9 (amended): a collapsed range (start = end) in a text node or at a
container offset stringifies as an adjacent open+close token pair, and the
range builder turns an adjacent start/end token pair at one position into
exactly one range, which is collapsed; a concrete collapsed range round
trips through stringify and parse.  (The builder reaches this through the
ordinary open-then-close path: the open slot briefly holds the range.) -/
theorem c9_collapsed_symmetry :
    (∀ (data : Str) (path : List Nat) (o : Nat), o ≤ data.length →
      stringifyTextRanges [⟨⟨path, o⟩, ⟨path, o⟩⟩] path data =
        data.take o ++ TEXT_RANGE_START_TOKEN :: TEXT_RANGE_END_TOKEN :: data.drop o) ∧
    (∀ (path : List Nat) (offset : Nat),
      stringifyElementRanges [⟨⟨path, offset⟩, ⟨path, offset⟩⟩] path offset =
        [ELEMENT_RANGE_START_TOKEN, ELEMENT_RANGE_END_TOKEN]) ∧
    (∀ (p : VPos) (rest : List PosItem),
      createRangesAux none (⟨TEXT_RANGE_START_TOKEN, p⟩ :: ⟨TEXT_RANGE_END_TOKEN, p⟩ :: rest) =
        (createRangesAux none rest).map (fun rs => (⟨p, p⟩ : VRange) :: rs)) ∧
    (∀ p : VPos, (⟨p, p⟩ : VRange).isCollapsed = true) ∧
    parse (stringify (mkElement "p".data [] [mkText "foobar".data])
        (some ⟨[⟨⟨[0], 2⟩, ⟨[0], 2⟩⟩], false⟩) true true) [] false =
      .ok (.withSelection (mkElement "p".data [] [mkText "foobar".data])
          ⟨[⟨⟨[0], 2⟩, ⟨[0], 2⟩⟩], false⟩) := by
  refine ⟨?_, ?_, ?_, ?_, by decide⟩
  · intro data path o ho
    rw [stringifyTextRanges_eq]
    have hfun : ∀ j : Nat,
        textEndTokensAt [⟨⟨path, o⟩, ⟨path, o⟩⟩] path j ++
          textCollapsedTokensAt [⟨⟨path, o⟩, ⟨path, o⟩⟩] path j ++
          textStartTokensAt [⟨⟨path, o⟩, ⟨path, o⟩⟩] path j ++ (data.drop j).take 1 =
        (if j = o then [TEXT_RANGE_START_TOKEN, TEXT_RANGE_END_TOKEN] else []) ++
          (data.drop j).take 1 := by
      intro j
      by_cases hj : j = o <;>
        simp [textEndTokensAt, textCollapsedTokensAt, textStartTokensAt, VRange.isCollapsed,
              List.filter_cons, hj, eq_comm]
    simp only [hfun]
    rw [flatten_insert_cells data o ho [TEXT_RANGE_START_TOKEN, TEXT_RANGE_END_TOKEN]]
    simp
  · intro path offset
    rw [stringifyElementRanges_eq]
    simp [elemEndTokensAt, elemCollapsedTokensAt, elemStartTokensAt, VRange.isCollapsed,
          List.filter_cons]
  · intro p rest
    cases hA : createRangesAux none rest with
    | error e =>
        simp [createRangesAux, TEXT_RANGE_START_TOKEN, TEXT_RANGE_END_TOKEN,
              ELEMENT_RANGE_START_TOKEN, ELEMENT_RANGE_END_TOKEN, hA, bind, Except.bind,
              Except.map]
    | ok rs =>
        simp [createRangesAux, TEXT_RANGE_START_TOKEN, TEXT_RANGE_END_TOKEN,
              ELEMENT_RANGE_START_TOKEN, ELEMENT_RANGE_END_TOKEN, hA, bind, Except.bind,
              Except.map]
  · intro p
    simp [VRange.isCollapsed]

/-- C9 witness: the collapsed pair spliced at offset 2 of `foobar`. -/
theorem c9_collapsed_symmetry_witness :
    stringifyTextRanges [⟨⟨[0], 2⟩, ⟨[0], 2⟩⟩] [0] "foobar".data =
      "foobar".data.take 2 ++ TEXT_RANGE_START_TOKEN :: TEXT_RANGE_END_TOKEN ::
        "foobar".data.drop 2 :=
  c9_collapsed_symmetry.1 "foobar".data [0] 2 (by decide)

/-- C9 counterexample: the scan phase records the adjacent pair as two
separate single-token position items (no pair matcher exists there), and
the first token of the pair opens the single range slot — the slot does
hold the collapsed range between the two tokens. -/
theorem c9_pair_goes_through_slot :
    scanText "a\x7b\x7db".data [] 0 =
      .ok (some (.text "ab".data), [⟨'\x7b', ⟨[0], 1⟩⟩, ⟨'\x7d', ⟨[0], 1⟩⟩]) ∧
    createRangesAux none [⟨TEXT_RANGE_START_TOKEN, ⟨[0], 1⟩⟩,
        ⟨TEXT_RANGE_END_TOKEN, ⟨[0], 1⟩⟩] =
      createRangesAux (some ⟨⟨[0], 1⟩, ⟨[0], 1⟩⟩) [⟨TEXT_RANGE_END_TOKEN, ⟨[0], 1⟩⟩] := by
  refine ⟨by decide, by decide⟩

/-- C10 (amended): the phase-1 scanner's character class does include the
space character alongside the four bracket tokens, so spaces are stripped
from every scanned text node and space-only text nodes are removed; but
every space is also recorded as a marker event: a space strictly inside the
remaining text aborts parsing with the marker-placement error (so
`parse("<p>foo bar</p>")` fails rather than yielding `foobar`), and an edge
space flows into range building as an element-boundary event, where it acts
as an end delimiter (e.g. `parse("<p>[ foo</p>")` yields a collapsed range
instead of an unterminated-range error). -/
theorem c10_space_in_scanner_class :
    isScanToken ' ' = true ∧
    (∀ (data : Str) (pp : List Nat) (idx : Nat) (v : ViewNode) (ps : List PosItem),
      scanText data pp idx = .ok (some v, ps) →
      v = .text (data.filter (fun c => !isScanToken c))) ∧
    scanText "  ".data [] 0 = .ok (none, [⟨' ', ⟨[], 0⟩⟩, ⟨' ', ⟨[], 0⟩⟩]) ∧
    parse "<p>foo bar</p>".data [] false = .error .markerPlacement ∧
    parse "<p>[ foo</p>".data [] false =
      .ok (.withSelection (ViewNode.element .plain ['p'] 10 [] [.text "foo".data])
          ⟨[⟨⟨[], 0⟩, ⟨[], 0⟩⟩], false⟩) := by
  refine ⟨rfl, ?_, by decide, by decide, by decide⟩
  intro data pp idx v ps h
  unfold scanText at h
  simp only [bind, Except.bind] at h
  cases hcl : classifyBrackets (collectBrackets data 0 0)
      (data.filter (fun c => !isScanToken c)) (pp ++ [idx]) pp idx with
  | error e => rw [hcl] at h; simp at h
  | ok ps0 =>
      rw [hcl] at h
      simp only [] at h
      by_cases hs : data.filter (fun c => !isScanToken c) = []
      · rw [if_pos hs] at h; simp at h
      · rw [if_neg hs] at h
        simp at h
        exact h.1.symm

/-- C10 witness: the scan of `"[ foo"` keeps the space-stripped text. -/
theorem c10_space_in_scanner_class_witness :
    ViewNode.text "foo".data =
      ViewNode.text ("[ foo".data.filter (fun c => !isScanToken c)) :=
  c10_space_in_scanner_class.2.1 "[ foo".data [] 0 (ViewNode.text "foo".data)
    [⟨'[', ⟨[], 0⟩⟩, ⟨' ', ⟨[], 0⟩⟩] (by decide)

/-- C10 counterexample: parsing `"<p>foo bar</p>"` does not yield a text
node `foobar` — the interior space is treated as a marker token and parsing
fails with the marker-placement error. -/
theorem c10_interior_space_fails :
    parse "<p>foo bar</p>".data [] false = .error .markerPlacement ∧
    parse "<p>foo bar</p>".data [] false ≠
      .ok (.tree (ViewNode.element .plain ['p'] 10 [] [.text "foobar".data])) := by
  refine ⟨by decide, by decide⟩

theorem allowedNameChars_facts : ∀ c ∈ allowedNameChars,
    Char.toLower c = c ∧ c ≠ ':' ∧ c ≠ ' ' ∧ c ≠ '>' ∧ c ≠ '<' ∧ c ≠ '=' ∧
    c ≠ '"' ∧ c ≠ '/' ∧ isScanToken c = false := by decide

theorem digitChar_facts : ∀ m : Nat, m < 10 →
    (digitChar m).toNat - 48 = m ∧ isDigitChar (digitChar m) = true ∧
    Char.toLower (digitChar m) = digitChar m ∧ digitChar m ≠ ':' ∧
    digitChar m ≠ ' ' ∧ digitChar m ≠ '>' ∧ digitChar m ≠ '<' ∧
    digitChar m ≠ '"' ∧ digitChar m ≠ '=' ∧ digitChar m ≠ '/' ∧
    isJsWhitespace (digitChar m) = false ∧ digitChar m ≠ '-' ∧ digitChar m ≠ '+' := by decide

theorem natDigitsAux_spec : ∀ (fuel n : Nat), n < fuel →
    natDigitsAux fuel n ≠ [] ∧
    (∀ c ∈ natDigitsAux fuel n, ∃ m, m < 10 ∧ c = digitChar m) ∧
    digitsVal (natDigitsAux fuel n) = n := by
  intro fuel
  induction fuel with
  | zero => intro n h; omega
  | succ fuel ih =>
      intro n h
      by_cases h10 : n < 10
      · refine ⟨by simp [natDigitsAux, h10], ?_, ?_⟩
        · intro c hc
          simp [natDigitsAux, h10] at hc
          exact ⟨n, h10, hc⟩
        · simp [natDigitsAux, h10, digitsVal]
          exact (digitChar_facts n h10).1
      · have hfn : n / 10 < fuel := by omega
        obtain ⟨ih1, ih2, ih3⟩ := ih (n / 10) hfn
        refine ⟨by simp [natDigitsAux, h10], ?_, ?_⟩
        · intro c hc
          simp only [natDigitsAux, if_neg h10, List.mem_append, List.mem_singleton] at hc
          rcases hc with hc | hc
          · exact ih2 c hc
          · exact ⟨n % 10, by omega, hc⟩
        · simp only [natDigitsAux, if_neg h10, digitsVal, List.foldl_append, List.foldl_cons,
            List.foldl_nil]
          have := (digitChar_facts (n % 10) (by omega)).1
          show 10 * digitsVal (natDigitsAux fuel (n / 10)) + ((digitChar (n % 10)).toNat - 48) = n
          rw [ih3, this]
          omega

theorem takeWhile_eq_self_of_all {p : Char → Bool} (l : Str) (h : ∀ c ∈ l, p c = true) :
    l.takeWhile p = l := by
  induction l with
  | nil => rfl
  | cons c cs ih =>
      rw [List.takeWhile_cons, h c (List.mem_cons_self c cs)]
      simp [ih (fun x hx => h x (List.mem_cons_of_mem _ hx))]

theorem dropWhile_eq_self_of_head {p : Char → Bool} (c : Char) (cs : Str) (h : p c = false) :
    (c :: cs).dropWhile p = c :: cs := by
  rw [List.dropWhile_cons, h]
  simp

theorem jsParseInt_digitRep (l : Str) (hne : l ≠ [])
    (hRep : ∀ c ∈ l, ∃ m, m < 10 ∧ c = digitChar m) :
    jsParseInt l = some ((digitsVal l : Int)) := by
  cases l with
  | nil => exact absurd rfl hne
  | cons c cs =>
      obtain ⟨m, hm10, rfl⟩ := hRep c (List.mem_cons_self c cs)
      have hfacts := digitChar_facts m hm10
      have hAll : ∀ x ∈ digitChar m :: cs, isDigitChar x = true := by
        intro x hx
        obtain ⟨m2, hm2, rfl⟩ := hRep x hx
        exact (digitChar_facts m2 hm2).2.1
      unfold jsParseInt
      simp [@dropWhile_eq_self_of_head isJsWhitespace _ cs hfacts.2.2.2.2.2.2.2.2.2.2.1,
            takeWhile_eq_self_of_all _ hAll,
            hfacts.2.2.2.2.2.2.2.2.2.2.2.1, hfacts.2.2.2.2.2.2.2.2.2.2.2.2]

theorem jsParseInt_neg_digitRep (l : Str) (hne : l ≠ [])
    (hRep : ∀ c ∈ l, ∃ m, m < 10 ∧ c = digitChar m) :
    jsParseInt ('-' :: l) = some (-((digitsVal l : Int))) := by
  have hAll : ∀ x ∈ l, isDigitChar x = true := by
    intro x hx
    obtain ⟨m2, hm2, rfl⟩ := hRep x hx
    exact (digitChar_facts m2 hm2).2.1
  unfold jsParseInt
  simp [@dropWhile_eq_self_of_head isJsWhitespace '-' l (by decide),
        takeWhile_eq_self_of_all _ hAll, hne]

theorem jsParseInt_intToStr (p : Int) : jsParseInt (intToStr p) = some p := by
  by_cases hp : p < 0
  · obtain ⟨hne, hdig, hval⟩ :=
      natDigitsAux_spec ((-p).toNat + 1) (-p).toNat (Nat.lt_succ_self _)
    have hneD : natDigits (-p).toNat ≠ [] := hne
    have hvalD : digitsVal (natDigits (-p).toNat) = (-p).toNat := hval
    have hdigD : ∀ c ∈ natDigits (-p).toNat, ∃ m, m < 10 ∧ c = digitChar m := fun c hc => hdig c hc
    unfold intToStr
    rw [if_pos hp, jsParseInt_neg_digitRep _ hneD hdigD]
    rw [hvalD]
    congr 1
    omega
  · obtain ⟨hne, hdig, hval⟩ :=
      natDigitsAux_spec (p.toNat + 1) p.toNat (Nat.lt_succ_self _)
    have hneD : natDigits p.toNat ≠ [] := hne
    have hvalD : digitsVal (natDigits p.toNat) = p.toNat := hval
    have hdigD : ∀ c ∈ natDigits p.toNat, ∃ m, m < 10 ∧ c = digitChar m := fun c hc => hdig c hc
    unfold intToStr
    rw [if_neg hp, jsParseInt_digitRep _ hneD hdigD]
    rw [hvalD]
    congr 1
    omega

theorem map_toLower_eq_self (s : Str) (h : ∀ c ∈ s, Char.toLower c = c) :
    s.map Char.toLower = s := by
  induction s with
  | nil => rfl
  | cons c cs ih =>
      rw [List.map_cons, h c (List.mem_cons_self c cs),
          ih (fun x hx => h x (List.mem_cons_of_mem _ hx))]

theorem intToStr_ne_nil (p : Int) : intToStr p ≠ [] := by
  unfold intToStr
  by_cases hp : p < 0
  · simp [hp]
  · rw [if_neg hp]
    exact (natDigitsAux_spec (p.toNat + 1) p.toNat (Nat.lt_succ_self _)).1

theorem intToStr_chars (p : Int) : ∀ c ∈ intToStr p,
    Char.toLower c = c ∧ c ≠ ':' ∧ c ≠ ' ' ∧ c ≠ '>' ∧ c ≠ '<' ∧ c ≠ '=' ∧
    c ≠ '"' ∧ c ≠ '/' ∧ isScanToken c = false := by
  have hD : ∀ (m : Nat), m < 10 →
      Char.toLower (digitChar m) = digitChar m ∧ digitChar m ≠ ':' ∧ digitChar m ≠ ' ' ∧
      digitChar m ≠ '>' ∧ digitChar m ≠ '<' ∧ digitChar m ≠ '=' ∧ digitChar m ≠ '"' ∧
      digitChar m ≠ '/' ∧ isScanToken (digitChar m) = false := by decide
  have hMinus : Char.toLower '-' = '-' ∧ ('-' : Char) ≠ ':' ∧ ('-' : Char) ≠ ' ' ∧
      ('-' : Char) ≠ '>' ∧ ('-' : Char) ≠ '<' ∧ ('-' : Char) ≠ '=' ∧ ('-' : Char) ≠ '"' ∧
      ('-' : Char) ≠ '/' ∧ isScanToken '-' = false := by decide
  intro c hc
  unfold intToStr at hc
  by_cases hp : p < 0
  · rw [if_pos hp] at hc
    rcases List.mem_cons.mp hc with rfl | hc'
    · exact hMinus
    · obtain ⟨m, hm10, rfl⟩ :=
        (natDigitsAux_spec ((-p).toNat + 1) (-p).toNat (Nat.lt_succ_self _)).2.1 c hc'
      exact hD m hm10
  · rw [if_neg hp] at hc
    obtain ⟨m, hm10, rfl⟩ :=
      (natDigitsAux_spec (p.toNat + 1) p.toNat (Nat.lt_succ_self _)).2.1 c hc
    exact hD m hm10

theorem tagNameOf_plain (st sp : Bool) (n : Str) (p : Int) (hn : n ≠ []) :
    tagNameOf st sp EKind.plain n p = n := by
  unfold tagNameOf stringifyElementType stringifyElementPriority
  cases st <;> simp [joinSep, hn]

theorem tagNameOf_container (n : Str) (p : Int) (hn : n ≠ []) :
    tagNameOf true true EKind.container n p = "container".data ++ ':' :: n := by
  unfold tagNameOf stringifyElementType stringifyElementPriority
  simp [joinSep, hn]

theorem tagNameOf_attribute (n : Str) (p : Int) (hn : n ≠ []) :
    tagNameOf true true EKind.attribute n p =
      "attribute".data ++ ':' :: n ++ ':' :: intToStr p := by
  unfold tagNameOf stringifyElementType stringifyElementPriority
  simp [joinSep, hn, intToStr_ne_nil p]

theorem goodName_chars (n : Str) (h : goodName n = true) : n ≠ [] ∧ ∀ c ∈ n,
    Char.toLower c = c ∧ c ≠ ':' ∧ c ≠ ' ' ∧ c ≠ '>' ∧ c ≠ '<' ∧ c ≠ '=' ∧
    c ≠ '"' ∧ c ≠ '/' ∧ isScanToken c = false := by
  unfold goodName at h
  simp only [Bool.and_eq_true, decide_eq_true_eq, List.all_eq_true] at h
  exact ⟨h.1, fun c hc => allowedNameChars_facts c (h.2 c hc)⟩

theorem convertElementName_plain (n : Str) (p : Int) (hgood : goodName n = true) :
    convertElementName (tagNameOf true true EKind.plain n p) = .ok ⟨n, none, none⟩ := by
  obtain ⟨hn, hchars⟩ := goodName_chars n hgood
  rw [tagNameOf_plain true true n p hn]
  unfold convertElementName
  simp only []
  rw [map_toLower_eq_self n (fun c hc => (hchars c hc).1)]
  rw [splitOnColon_no_colon n (fun hc => ((hchars ':' hc).2.1) rfl)]

theorem convertElementName_container (n : Str) (p : Int) (hgood : goodName n = true) :
    convertElementName (tagNameOf true true EKind.container n p) =
      .ok ⟨n, some EKind.container, none⟩ := by
  obtain ⟨hn, hchars⟩ := goodName_chars n hgood
  have hcontL : ∀ c ∈ "container".data, Char.toLower c = c := by decide
  rw [tagNameOf_container n p hn]
  unfold convertElementName
  simp only []
  rw [map_toLower_eq_self _ (by
    intro c hc
    rcases List.mem_append.mp hc with hc1 | hc1
    · exact hcontL c hc1
    · rcases List.mem_cons.mp hc1 with rfl | hc2
      · decide
      · exact (hchars c hc2).1)]
  rw [splitOnColon_append "container".data n (by decide)]
  rw [splitOnColon_no_colon n (fun hc => ((hchars ':' hc).2.1) rfl)]
  rfl

theorem convertElementName_attribute (n : Str) (p : Int) (hgood : goodName n = true) :
    convertElementName (tagNameOf true true EKind.attribute n p) =
      .ok ⟨n, some EKind.attribute, some p⟩ := by
  obtain ⟨hn, hchars⟩ := goodName_chars n hgood
  have hattrL : ∀ c ∈ "attribute".data, Char.toLower c = c := by decide
  rw [tagNameOf_attribute n p hn]
  unfold convertElementName
  simp only []
  rw [map_toLower_eq_self _ (by
    intro c hc
    rcases List.mem_append.mp hc with hc1 | hc1
    · rcases List.mem_append.mp hc1 with hc2 | hc2
      · exact hattrL c hc2
      · rcases List.mem_cons.mp hc2 with rfl | hc3
        · decide
        · exact (hchars c hc3).1
    · rcases List.mem_cons.mp hc1 with rfl | hc3
      · decide
      · exact (intToStr_chars p c hc3).1)]
  have hassoc : ("attribute".data ++ ':' :: n) ++ ':' :: intToStr p =
      "attribute".data ++ ':' :: (n ++ ':' :: intToStr p) := by
    simp [List.append_assoc]
  rw [hassoc]
  rw [splitOnColon_append "attribute".data _ (by decide)]
  rw [splitOnColon_append n _ (fun hc => ((hchars ':' hc).2.1) rfl)]
  rw [splitOnColon_no_colon (intToStr p) (fun hc => ((intToStr_chars p ':' hc).2.1) rfl)]
  have hT : convertType "attribute".data = some EKind.attribute := by decide
  have hP : convertPriority (intToStr p) = some p := jsParseInt_intToStr p
  simp only []
  rw [hT, hP]

theorem stringifyElementRanges_nil (path : List Nat) (offset : Nat) :
    stringifyElementRanges [] path offset = [] := rfl

theorem stringifyTextRanges_nil (path : List Nat) (data : Str) :
    stringifyTextRanges [] path data = data := by
  unfold stringifyTextRanges
  simp only [List.foldl_nil]
  induction data with
  | nil => rfl
  | cons c cs ih =>
      simp only [initSlots, List.map_cons, List.cons_append, List.flatten_cons] at ih ⊢
      simpa using ih

mutual

theorem walkView_nil : ∀ (st sp : Bool) (v : ViewNode) (path : List Nat),
    walkView [] st sp v path = plainPrint st sp v
  | st, sp, .text data, path => by
      unfold walkView plainPrint
      exact stringifyTextRanges_nil path data
  | st, sp, .element k n p a cs, path => by
      unfold walkView plainPrint
      rw [stringifyElementRanges_nil, walkViewChildren_nil st sp cs path 0]
      simp

  | st, sp, .fragment cs, path => by
      unfold walkView plainPrint
      rw [stringifyElementRanges_nil, walkViewChildren_nil st sp cs path 0]
      simp

theorem walkViewChildren_nil : ∀ (st sp : Bool) (cs : List ViewNode) (path : List Nat) (i : Nat),
    walkViewChildren [] st sp cs path i = plainPrintList st sp cs
  | st, sp, [], path, i => rfl
  | st, sp, c :: cs, path, i => by
      unfold walkViewChildren plainPrintList
      rw [stringifyElementRanges_nil, walkView_nil st sp c (path ++ [i]),
          walkViewChildren_nil st sp cs path (i + 1)]
      simp

end

theorem stringify_eq_plainPrint (v : ViewNode) (st sp : Bool) :
    stringify v none st sp = plainPrint st sp v := by
  unfold stringify
  exact walkView_nil st sp v []

theorem viewSetAttribute_append (m : List (Str × Str)) (k v : Str)
    (h : k ∉ m.map Prod.fst) : viewSetAttribute m k v = m ++ [(k, v)] := by
  induction m with
  | nil => rfl
  | cons kv rest ih =>
      obtain ⟨k0, v0⟩ := kv
      simp only [List.map_cons, List.mem_cons, not_or] at h
      unfold viewSetAttribute
      rw [if_neg (fun hh => h.1 hh.symm), ih h.2]
      simp

theorem foldl_setAttribute : ∀ (a m : List (Str × Str)),
    (m.map Prod.fst ++ a.map Prod.fst).Nodup →
    a.foldl (fun m kv => viewSetAttribute m kv.1 kv.2) m = m ++ a
  | [], m, _ => by simp
  | (k, v) :: a', m, h => by
      simp only [List.foldl_cons]
      have hk : k ∉ m.map Prod.fst := by
        rw [List.nodup_append] at h
        exact fun hm => h.2.2 hm (by simp)
      rw [viewSetAttribute_append m k v hk]
      have h' : ((m ++ [(k, v)]).map Prod.fst ++ a'.map Prod.fst).Nodup := by
        simpa [List.map_append, List.append_assoc] using h
      rw [foldl_setAttribute a' (m ++ [(k, v)]) h']
      simp

theorem buildElement_plain (n : Str) (a : List (Str × Str)) (vs : List ViewNode)
    (h : (a.map Prod.fst).Nodup) :
    buildElement ⟨n, none, none⟩ a vs = .element EKind.plain n DEFAULT_PRIORITY a vs := by
  unfold buildElement
  simp only []
  rw [foldl_setAttribute a [] (by simpa using h)]
  simp

theorem buildElement_container (n : Str) (a : List (Str × Str)) (vs : List ViewNode)
    (h : (a.map Prod.fst).Nodup) :
    buildElement ⟨n, some EKind.container, none⟩ a vs =
      .element EKind.container n DEFAULT_PRIORITY a vs := by
  unfold buildElement
  simp only []
  rw [foldl_setAttribute a [] (by simpa using h)]
  simp

theorem buildElement_attribute (n : Str) (p : Int) (a : List (Str × Str)) (vs : List ViewNode)
    (h : (a.map Prod.fst).Nodup) :
    buildElement ⟨n, some EKind.attribute, some p⟩ a vs =
      .element EKind.attribute n p a vs := by
  unfold buildElement
  simp only []
  rw [foldl_setAttribute a [] (by simpa using h)]
  simp

theorem goodAttrs_nodup (a : List (Str × Str)) (h : goodAttrs a = true) :
    (a.map Prod.fst).Nodup := by
  unfold goodAttrs at h
  simp only [Bool.and_eq_true, decide_eq_true_eq] at h
  exact h.2

mutual

theorem walkDom_domOfView : ∀ (v : ViewNode), GoodNode v = true →
    walkDom (domOfView true true v) = .ok v
  | .text data, _ => rfl
  | .element k n p a cs, h => by
      unfold GoodNode at h
      simp only [Bool.and_eq_true] at h
      obtain ⟨⟨⟨⟨hname, hprio⟩, hattrs⟩, hadj⟩, hcs⟩ := h
      have hNodup : (a.map Prod.fst).Nodup := goodAttrs_nodup a hattrs
      unfold domOfView
      unfold walkDom
      simp only [bind, Except.bind]
      cases k
      · have hp : p = DEFAULT_PRIORITY := by
          simpa using hprio
        rw [convertElementName_plain n p hname]
        simp only []
        rw [walkDomList_domOfViewList cs hcs]
        simp only []
        rw [buildElement_plain n a cs hNodup, hp]
      · have hp : p = DEFAULT_PRIORITY := by
          simpa using hprio
        rw [convertElementName_container n p hname]
        simp only []
        rw [walkDomList_domOfViewList cs hcs]
        simp only []
        rw [buildElement_container n a cs hNodup, hp]
      · rw [convertElementName_attribute n p hname]
        simp only []
        rw [walkDomList_domOfViewList cs hcs]
        simp only []
        rw [buildElement_attribute n p a cs hNodup]
  | .fragment cs, h => by
      simp [GoodNode] at h

theorem walkDomList_domOfViewList : ∀ (cs : List ViewNode), GoodNodeList cs = true →
    walkDomList (domOfViewList true true cs) = .ok cs
  | [], _ => rfl
  | c :: cs, h => by
      unfold GoodNodeList at h
      simp only [Bool.and_eq_true] at h
      unfold domOfViewList walkDomList
      simp only [bind, Except.bind]
      rw [walkDom_domOfView c h.1]
      simp only []
      rw [walkDomList_domOfViewList cs h.2]

end

theorem collectBrackets_nil_of_no_tokens : ∀ (data : Str) (i m : Nat),
    (∀ c ∈ data, isScanToken c = false) → collectBrackets data i m = []
  | [], _, _, _ => rfl
  | c :: cs, i, m, h => by
      unfold collectBrackets
      rw [if_neg (by simp [h c (List.mem_cons_self c cs)])]
      exact collectBrackets_nil_of_no_tokens cs (i + 1) m
        (fun x hx => h x (List.mem_cons_of_mem _ hx))

theorem goodText_chars (data : Str) (h : goodText data = true) :
    data ≠ [] ∧ ∀ c ∈ data, isScanToken c = false ∧ c ≠ '<' := by
  unfold goodText at h
  simp only [Bool.and_eq_true, List.all_eq_true, Bool.not_eq_true',
    decide_eq_true_eq] at h
  exact h

theorem scanText_good (data : Str) (pp : List Nat) (i : Nat) (h : goodText data = true) :
    scanText data pp i = .ok (some (.text data), []) := by
  obtain ⟨hne, hchars⟩ := goodText_chars data h
  have hfil : data.filter (fun c => !isScanToken c) = data :=
    List.filter_eq_self.mpr (fun c hc => by simp [(hchars c hc).1])
  unfold scanText
  simp only [bind, Except.bind]
  rw [collectBrackets_nil_of_no_tokens data 0 0 (fun c hc => (hchars c hc).1), hfil]
  simp only [classifyBrackets]
  rw [if_neg hne]

theorem goodNode_element_children (k : EKind) (n : Str) (p : Int) (a : List (Str × Str))
    (cs : List ViewNode) (h : GoodNode (.element k n p a cs) = true) :
    GoodNodeList cs = true := by
  unfold GoodNode at h
  simp only [Bool.and_eq_true] at h
  exact h.2

mutual

theorem getPosNode_good : ∀ (v : ViewNode) (pp : List Nat) (i : Nat), GoodNode v = true →
    getPosNode v pp i = .ok (some v, [])
  | .text data, pp, i, h => by
      unfold getPosNode
      exact scanText_good data pp i (by simpa [GoodNode] using h)
  | .element k n p a cs, pp, i, h => by
      unfold getPosNode
      simp only [bind, Except.bind]
      rw [getPosChildren_good cs (pp ++ [i]) 0 (goodNode_element_children k n p a cs h)]
  | .fragment cs, pp, i, h => by simp [GoodNode] at h

theorem getPosChildren_good : ∀ (cs : List ViewNode) (sp : List Nat) (k : Nat),
    GoodNodeList cs = true → getPosChildren cs sp k = .ok (cs, [])
  | [], _, _, _ => rfl
  | c :: cs, sp, k, h => by
      unfold GoodNodeList at h
      simp only [Bool.and_eq_true] at h
      unfold getPosChildren
      simp only [bind, Except.bind]
      rw [getPosNode_good c sp k h.1]
      simp only []
      rw [getPosChildren_good cs sp (k + 1) h.2]
      simp

end

theorem getPosRoot_good (v : ViewNode) (h : GoodRoot v = true) :
    getPosRoot v = .ok (some v, []) := by
  cases v with
  | text data => simp [GoodRoot] at h
  | element k n p a cs =>
      unfold getPosRoot
      simp only [bind, Except.bind]
      rw [getPosChildren_good cs [] 0 (goodNode_element_children k n p a cs h)]
  | fragment cs =>
      have hcs : GoodNodeList cs = true := by
        unfold GoodRoot at h
        simp only [Bool.and_eq_true] at h
        exact h.2
      unfold getPosRoot
      simp only [bind, Except.bind]
      rw [getPosChildren_good cs [] 0 hcs]

theorem rangeParserParse_good (v : ViewNode) (h : GoodRoot v = true) :
    rangeParserParse v [] = .ok (some v, []) := by
  unfold rangeParserParse
  simp only [bind, Except.bind]
  rw [getPosRoot_good v h]
  rfl

theorem takeWhile_append_stop {p : Char → Bool} (xs : Str) (y : Char) (ys : Str)
    (hx : ∀ a ∈ xs, p a = true) (hy : p y = false) :
    (xs ++ y :: ys).takeWhile p = xs := by
  induction xs with
  | nil => simp [List.takeWhile_cons, hy]
  | cons a xs ih =>
      rw [List.cons_append, List.takeWhile_cons, hx a (List.mem_cons_self a xs)]
      simp [ih (fun b hb => hx b (List.mem_cons_of_mem _ hb))]

theorem dropWhile_append_stop {p : Char → Bool} (xs : Str) (y : Char) (ys : Str)
    (hx : ∀ a ∈ xs, p a = true) (hy : p y = false) :
    (xs ++ y :: ys).dropWhile p = y :: ys := by
  induction xs with
  | nil => simp [List.dropWhile_cons, hy]
  | cons a xs ih =>
      rw [List.cons_append, List.dropWhile_cons, hx a (List.mem_cons_self a xs)]
      simp [ih (fun b hb => hx b (List.mem_cons_of_mem _ hb))]

theorem dropWhile_nil_of_all {p : Char → Bool} (l : Str) (h : ∀ a ∈ l, p a = true) :
    l.dropWhile p = [] := by
  induction l with
  | nil => rfl
  | cons a l ih =>
      rw [List.dropWhile_cons, h a (List.mem_cons_self a l)]
      simp [ih (fun b hb => h b (List.mem_cons_of_mem _ hb))]

theorem takeUntil_append (c : Char) (xs ys : Str) (hx : ∀ a ∈ xs, a ≠ c)
    (hy : ys = [] ∨ ∃ t, ys = c :: t) :
    takeUntil c (xs ++ ys) = (xs, ys) := by
  unfold takeUntil
  rcases hy with rfl | ⟨t, rfl⟩
  · rw [List.append_nil,
      takeWhile_eq_self_of_all xs (fun a ha => by simp [hx a ha]),
      dropWhile_nil_of_all xs (fun a ha => by simp [hx a ha])]
  · rw [takeWhile_append_stop xs c t (fun a ha => by simp [hx a ha]) (by simp),
      dropWhile_append_stop xs c t (fun a ha => by simp [hx a ha]) (by simp)]

theorem mem_joinSep (sep : Char) : ∀ (l : List Str) (c : Char), c ∈ joinSep sep l →
    c = sep ∨ ∃ x ∈ l, c ∈ x
  | [], c, h => by simp [joinSep] at h
  | [x], c, h => Or.inr ⟨x, by simp, h⟩
  | x :: y :: t, c, h => by
      unfold joinSep at h
      rcases List.mem_append.mp h with h1 | h1
      · exact Or.inr ⟨x, by simp, h1⟩
      · rcases List.mem_cons.mp h1 with rfl | h2
        · exact Or.inl rfl
        · rcases mem_joinSep sep (y :: t) c h2 with h3 | ⟨z, hz, hcz⟩
          · exact Or.inl h3
          · exact Or.inr ⟨z, List.mem_cons_of_mem _ hz, hcz⟩

theorem tagNameOf_chars (k : EKind) (n : Str) (p : Int) (hn : goodName n = true) :
    ∀ c ∈ tagNameOf true true k n p,
      c ≠ ' ' ∧ c ≠ '>' ∧ c ≠ '<' ∧ c ≠ '=' ∧ c ≠ '"' ∧ c ≠ '/' := by
  obtain ⟨hne, hchars⟩ := goodName_chars n hn
  have hlitC : ∀ c ∈ "container".data,
      c ≠ ' ' ∧ c ≠ '>' ∧ c ≠ '<' ∧ c ≠ '=' ∧ c ≠ '"' ∧ c ≠ '/' := by decide
  have hlitA : ∀ c ∈ "attribute".data,
      c ≠ ' ' ∧ c ≠ '>' ∧ c ≠ '<' ∧ c ≠ '=' ∧ c ≠ '"' ∧ c ≠ '/' := by decide
  have hcolon : (':' : Char) ≠ ' ' ∧ (':' : Char) ≠ '>' ∧ (':' : Char) ≠ '<' ∧
      (':' : Char) ≠ '=' ∧ (':' : Char) ≠ '"' ∧ (':' : Char) ≠ '/' := by decide
  have hgc : ∀ c ∈ n, c ≠ ' ' ∧ c ≠ '>' ∧ c ≠ '<' ∧ c ≠ '=' ∧ c ≠ '"' ∧ c ≠ '/' := by
    intro c hc
    obtain ⟨-, -, h3, h4, h5, h6, h7, h8, -⟩ := hchars c hc
    exact ⟨h3, h4, h5, h6, h7, h8⟩
  have hic : ∀ c ∈ intToStr p, c ≠ ' ' ∧ c ≠ '>' ∧ c ≠ '<' ∧ c ≠ '=' ∧ c ≠ '"' ∧ c ≠ '/' := by
    intro c hc
    obtain ⟨-, -, h3, h4, h5, h6, h7, h8, -⟩ := intToStr_chars p c hc
    exact ⟨h3, h4, h5, h6, h7, h8⟩
  cases k
  · rw [tagNameOf_plain true true n p hne]
    exact hgc
  · rw [tagNameOf_container n p hne]
    intro c hc
    rcases List.mem_append.mp hc with h1 | h1
    · exact hlitC c h1
    · rcases List.mem_cons.mp h1 with rfl | h2
      · exact hcolon
      · exact hgc c h2
  · rw [tagNameOf_attribute n p hne]
    intro c hc
    rcases List.mem_append.mp hc with h1 | h1
    · rcases List.mem_append.mp h1 with h2 | h2
      · exact hlitA c h2
      · rcases List.mem_cons.mp h2 with rfl | h3
        · exact hcolon
        · exact hgc c h3
    · rcases List.mem_cons.mp h1 with rfl | h3
      · exact hcolon
      · exact hic c h3

theorem tagNameOf_ne_nil (k : EKind) (n : Str) (p : Int) (hn : n ≠ []) :
    tagNameOf true true k n p ≠ [] := by
  cases k
  · rw [tagNameOf_plain true true n p hn]; exact hn
  · rw [tagNameOf_container n p hn]; simp
  · rw [tagNameOf_attribute n p hn]; simp

theorem goodAttrVal_chars (v : Str) (h : goodAttrVal v = true) :
    ∀ c ∈ v, c ≠ '"' ∧ c ≠ '>' := by
  unfold goodAttrVal at h
  simp only [List.all_eq_true, Bool.and_eq_true, decide_eq_true_eq] at h
  exact h

theorem goodAttrs_mem (a : List (Str × Str)) (h : goodAttrs a = true) :
    ∀ kv ∈ a, goodName kv.1 = true ∧ goodAttrVal kv.2 = true := by
  unfold goodAttrs at h
  simp only [Bool.and_eq_true, List.all_eq_true] at h
  intro kv hkv
  have := h.1 kv hkv
  simpa using this

theorem stringifyElementAttributes_no_gt (a : List (Str × Str)) (h : goodAttrs a = true) :
    ∀ c ∈ stringifyElementAttributes a, c ≠ '>' := by
  intro c hc
  unfold stringifyElementAttributes at hc
  rcases mem_joinSep ' ' _ c hc with rfl | ⟨x, hx, hcx⟩
  · decide
  · obtain ⟨kv, hkv, rfl⟩ := List.mem_map.mp hx
    obtain ⟨hk, hv⟩ := goodAttrs_mem a h kv hkv
    obtain ⟨-, hkc⟩ := goodName_chars kv.1 hk
    rcases List.mem_append.mp hcx with h1 | h1
    · rcases List.mem_append.mp h1 with h2 | h2
      · exact (hkc c h2).2.2.2.1
      · rcases List.mem_cons.mp h2 with rfl | h3
        · decide
        · rcases List.mem_cons.mp h3 with rfl | h4
          · decide
          · exact (goodAttrVal_chars kv.2 hv c h4).2
    · rcases List.mem_singleton.mp h1 with rfl
      decide

theorem stringifyElementAttributes_ne_nil (kv : Str × Str) (rest : List (Str × Str)) :
    stringifyElementAttributes (kv :: rest) ≠ [] := by
  cases rest <;> simp [stringifyElementAttributes, joinSep]

theorem parseAttrList_pair (fuel : Nat) (k v : Str) (tail : Str)
    (hk : goodName k = true) (hv : goodAttrVal v = true) :
    parseAttrList (fuel + 1) (k ++ '=' :: '"' :: (v ++ '"' :: tail)) =
      match parseAttrList fuel tail with
      | some r => some ((k, v) :: r)
      | none => none := by
  obtain ⟨hkne, hkc⟩ := goodName_chars k hk
  have hvc := goodAttrVal_chars v hv
  cases k with
  | nil => exact absurd rfl hkne
  | cons kh kt =>
      have hkhc := hkc kh (List.mem_cons_self kh kt)
      rw [List.cons_append]
      conv_lhs => unfold parseAttrList
      simp only []
      rw [if_neg hkhc.2.2.1]
      have h_an : ((kh :: kt) ++ '=' :: '"' :: (v ++ '"' :: tail)).takeWhile
          (fun x => x ≠ '=' && x ≠ ' ') = kh :: kt := by
        refine takeWhile_append_stop (kh :: kt) '=' ('"' :: (v ++ '"' :: tail))
          (fun a ha => ?_) (by decide)
        simp [(hkc a ha).2.2.1, (hkc a ha).2.2.2.2.2.1]
      rw [← List.cons_append, h_an]
      rw [if_neg (by simp)]
      rw [List.drop_left]
      simp only [List.take_succ_cons, List.take_zero, if_pos rfl, List.drop_succ_cons,
        List.drop_zero]
      have h_av : (v ++ '"' :: tail).takeWhile (fun x => x ≠ '"') = v := by
        refine takeWhile_append_stop v '"' tail (fun a ha => ?_) (by decide)
        simp [(hvc a ha).1]
      rw [h_av, List.drop_left]
      simp only [List.take_succ_cons, List.take_zero, if_pos rfl, List.drop_succ_cons,
        List.drop_zero]
      simp only [if_true]

theorem goodAttrs_cons (k v : Str) (rest : List (Str × Str))
    (h : goodAttrs ((k, v) :: rest) = true) :
    goodName k = true ∧ goodAttrVal v = true ∧ goodAttrs rest = true := by
  unfold goodAttrs at h ⊢
  simp only [Bool.and_eq_true, List.all_eq_true, decide_eq_true_eq, List.map_cons,
    List.nodup_cons] at h ⊢
  obtain ⟨hall, hnodup⟩ := h
  have hd := hall (k, v) (List.mem_cons_self _ _)
  simp only [Bool.and_eq_true] at hd
  exact ⟨hd.1, hd.2, fun kv hkv => hall kv (List.mem_cons_of_mem _ hkv), hnodup.2⟩

theorem parseAttrList_inv (a : List (Str × Str)) : ∀ (fuel : Nat), goodAttrs a = true →
    (stringifyElementAttributes a).length < fuel →
    parseAttrList fuel (stringifyElementAttributes a) = some a := by
  induction a with
  | nil =>
      intro fuel _ hlen
      cases fuel with
      | zero => simp [stringifyElementAttributes, joinSep] at hlen
      | succ f => rfl
  | cons kv rest ih =>
      obtain ⟨k, v⟩ := kv
      intro fuel hg hlen
      obtain ⟨hk, hv, hrest⟩ := goodAttrs_cons k v rest hg
      have hkpos : 0 < k.length := List.length_pos.mpr (goodName_chars k hk).1
      cases rest with
      | nil =>
          have hS : stringifyElementAttributes [(k, v)] =
              k ++ '=' :: '"' :: (v ++ '"' :: []) := by
            simp [stringifyElementAttributes, joinSep]
          rw [hS] at hlen ⊢
          have hfuel : 2 ≤ fuel := by
            simp [List.length_append] at hlen
            omega
          obtain ⟨f, rfl⟩ : ∃ f, fuel = f + 1 := ⟨fuel - 1, by omega⟩
          rw [parseAttrList_pair f k v [] hk hv]
          obtain ⟨f2, rfl⟩ : ∃ f2, f = f2 + 1 := ⟨f - 1, by omega⟩
          rfl
      | cons r0 rs =>
          have hS : stringifyElementAttributes ((k, v) :: r0 :: rs) =
              k ++ '=' :: '"' :: (v ++ '"' ::
                (' ' :: stringifyElementAttributes (r0 :: rs))) := by
            simp [stringifyElementAttributes, joinSep, List.append_assoc]
          rw [hS] at hlen ⊢
          have hlen' : (stringifyElementAttributes (r0 :: rs)).length + k.length +
              v.length + 4 < fuel := by
            simp [List.length_append] at hlen
            omega
          obtain ⟨f, rfl⟩ : ∃ f, fuel = f + 1 := ⟨fuel - 1, by omega⟩
          rw [parseAttrList_pair f k v (' ' :: stringifyElementAttributes (r0 :: rs)) hk hv]
          obtain ⟨f2, rfl⟩ : ∃ f2, f = f2 + 1 := ⟨f - 1, by omega⟩
          conv_lhs => unfold parseAttrList
          simp only [if_pos rfl]
          rw [ih f2 hrest (by omega)]
          simp only [if_true]

theorem parseTagContent_inv (k : EKind) (n : Str) (p : Int) (a : List (Str × Str))
    (hn : goodName n = true) (ha : goodAttrs a = true) :
    parseTagContent (joinSep ' ' (([tagNameOf true true k n p,
      stringifyElementAttributes a]).filter (fun s => s ≠ []))) =
      some (tagNameOf true true k n p, a) := by
  have hne : tagNameOf true true k n p ≠ [] := tagNameOf_ne_nil k n p (goodName_chars n hn).1
  have htc := tagNameOf_chars k n p hn
  cases a with
  | nil =>
      have hchunk : joinSep ' ' (([tagNameOf true true k n p,
          stringifyElementAttributes ([] : List (Str × Str))]).filter (fun s => s ≠ [])) =
          tagNameOf true true k n p := by
        simp [stringifyElementAttributes, joinSep, hne]
      rw [hchunk]
      unfold parseTagContent
      simp only []
      rw [takeWhile_eq_self_of_all (tagNameOf true true k n p)
        (fun c hc => by simp [(htc c hc).1])]
      rw [if_neg hne, List.drop_length]
      rfl
  | cons kv rest =>
      have hsne : stringifyElementAttributes (kv :: rest) ≠ [] :=
        stringifyElementAttributes_ne_nil kv rest
      have hchunk : joinSep ' ' (([tagNameOf true true k n p,
          stringifyElementAttributes (kv :: rest)]).filter (fun s => s ≠ [])) =
          tagNameOf true true k n p ++ ' ' :: stringifyElementAttributes (kv :: rest) := by
        simp [joinSep, hne, hsne]
      rw [hchunk]
      unfold parseTagContent
      simp only []
      rw [takeWhile_append_stop (tagNameOf true true k n p) ' '
        (stringifyElementAttributes (kv :: rest))
        (fun c hc => by simp [(htc c hc).1]) (by decide)]
      rw [if_neg hne, List.drop_left]
      conv_lhs => unfold parseAttrList
      simp only [List.length_append, List.length_cons, if_pos rfl]
      rw [parseAttrList_inv (kv :: rest) _ ha (by omega)]
      simp only [if_true]

theorem plainPrint_element_eq (k : EKind) (n : Str) (p : Int) (a : List (Str × Str))
    (cs : List ViewNode) :
    plainPrint true true (.element k n p a cs) =
      '<' :: (joinSep ' ' (([tagNameOf true true k n p,
          stringifyElementAttributes a]).filter (fun s => s ≠ [])) ++
        '>' :: (plainPrintList true true cs ++
          '<' :: '/' :: (tagNameOf true true k n p ++ ['>']))) := by
  unfold plainPrint stringifyElementOpen stringifyElementClose
  simp [List.append_assoc]

theorem noAdjacentTexts_tail (c : ViewNode) (cs : List ViewNode)
    (h : noAdjacentTexts (c :: cs) = true) : noAdjacentTexts cs = true := by
  cases cs with
  | nil => rfl
  | cons c2 cs2 => cases c <;> cases c2 <;> simp_all [noAdjacentTexts]

theorem chunk_facts (k : EKind) (n : Str) (p : Int) (a : List (Str × Str))
    (hn : goodName n = true) (ha : goodAttrs a = true) :
    ∃ th ct, joinSep ' ' (([tagNameOf true true k n p,
        stringifyElementAttributes a]).filter (fun s => s ≠ [])) = th :: ct ∧
      th ≠ '/' ∧ (∀ c ∈ th :: ct, c ≠ '>') := by
  have hne := tagNameOf_ne_nil k n p (goodName_chars n hn).1
  have htc := tagNameOf_chars k n p hn
  cases a with
  | nil =>
      have hchunk : joinSep ' ' (([tagNameOf true true k n p,
          stringifyElementAttributes ([] : List (Str × Str))]).filter (fun s => s ≠ [])) =
          tagNameOf true true k n p := by
        simp [stringifyElementAttributes, joinSep, hne]
      cases htn : tagNameOf true true k n p with
      | nil => exact absurd htn hne
      | cons th tt =>
          refine ⟨th, tt, by rw [← htn, hchunk, htn], ?_, ?_⟩
          · exact (htc th (by rw [htn]; exact List.mem_cons_self th tt)).2.2.2.2.2
          · intro c hc
            exact (htc c (by rw [htn]; exact hc)).2.1
  | cons kv rest =>
      have hsne : stringifyElementAttributes (kv :: rest) ≠ [] :=
        stringifyElementAttributes_ne_nil kv rest
      have hchunk : joinSep ' ' (([tagNameOf true true k n p,
          stringifyElementAttributes (kv :: rest)]).filter (fun s => s ≠ [])) =
          tagNameOf true true k n p ++ ' ' :: stringifyElementAttributes (kv :: rest) := by
        simp [joinSep, hne, hsne]
      cases htn : tagNameOf true true k n p with
      | nil => exact absurd htn hne
      | cons th tt =>
          refine ⟨th, tt ++ ' ' :: stringifyElementAttributes (kv :: rest),
            by rw [← htn, hchunk, htn, List.cons_append], ?_, ?_⟩
          · exact (htc th (by rw [htn]; exact List.mem_cons_self th tt)).2.2.2.2.2
          · intro c hc
            rw [← List.cons_append] at hc
            rcases List.mem_append.mp hc with h1 | h1
            · exact (htc c (by rw [htn]; exact h1)).2.1
            · rcases List.mem_cons.mp h1 with rfl | h2
              · decide
              · exact stringifyElementAttributes_no_gt (kv :: rest) ha c h2

theorem parseNodes_open_step (fuel : Nat) (th : Char) (ct : Str) (Y : Str)
    (hth : th ≠ '/') (hnogt : ∀ c ∈ th :: ct, c ≠ '>') :
    parseNodes (fuel + 1) ('<' :: ((th :: ct) ++ '>' :: Y)) =
      match parseTagContent (th :: ct) with
      | none => none
      | some (name, attrs) =>
          match parseNodes fuel Y with
          | none => none
          | some (children, rest3) =>
              if rest3.take 2 = ['<', '/'] then
                let (closeChunk, rest5) := takeUntil '>' (rest3.drop 2)
                if rest5.take 1 = ['>'] then
                  if closeChunk = name then
                    match parseNodes fuel (rest5.drop 1) with
                    | none => none
                    | some (siblings, rest7) =>
                        some (DomNode.element name attrs children :: siblings, rest7)
                  else none
                else none
              else none := by
  conv_lhs => unfold parseNodes
  simp only []
  have h1 : ((th :: ct) ++ '>' :: Y).take 1 = [th] := by simp
  rw [if_true, h1, if_neg (by simp [hth])]
  rw [takeUntil_append '>' (th :: ct) ('>' :: Y) hnogt (Or.inr ⟨Y, rfl⟩)]
  simp only []
  simp only [List.take_succ_cons, List.take_zero, List.drop_succ_cons, List.drop_zero,
    if_true]

theorem parseNodes_inv : ∀ (fuel : Nat) (cs : List ViewNode) (rest : Str),
    GoodNodeList cs = true → noAdjacentTexts cs = true →
    (rest = [] ∨ ∃ t, rest = '<' :: '/' :: t) →
    (plainPrintList true true cs ++ rest).length < fuel →
    parseNodes fuel (plainPrintList true true cs ++ rest) =
      some (domOfViewList true true cs, rest)
  | 0, cs, rest, _, _, _, hlen => by omega
  | fuel + 1, [], rest, _, _, hrest, _ => by
      rcases hrest with rfl | ⟨t, rfl⟩
      · rfl
      · rfl
  | fuel + 1, .text data :: cs', rest, hg, hadj, hrest, hlen => by
      have hg2 : goodText data = true ∧ GoodNodeList cs' = true := by
        unfold GoodNodeList GoodNode at hg
        simp only [Bool.and_eq_true] at hg
        exact hg
      obtain ⟨hgt, hg'⟩ := hg2
      obtain ⟨hne, hchars⟩ := goodText_chars data hgt
      have hX : plainPrintList true true (.text data :: cs') ++ rest =
          data ++ (plainPrintList true true cs' ++ rest) := by
        simp [plainPrintList, plainPrint, List.append_assoc]
      have hy : (plainPrintList true true cs' ++ rest) = [] ∨
          ∃ t, (plainPrintList true true cs' ++ rest) = '<' :: t := by
        cases cs' with
        | nil =>
            rcases hrest with rfl | ⟨t, rfl⟩
            · exact Or.inl rfl
            · exact Or.inr ⟨'/' :: t, rfl⟩
        | cons c2 cs2 =>
            cases c2 with
            | text d2 => simp [noAdjacentTexts] at hadj
            | element k2 n2 p2 a2 ecs2 =>
                exact Or.inr ⟨_, by
                  simp only [plainPrintList, plainPrint_element_eq, List.cons_append,
                    List.append_assoc]
                  rfl⟩
            | fragment fcs => simp [GoodNodeList, GoodNode] at hg'
      rw [hX] at hlen ⊢
      cases data with
      | nil => exact absurd rfl hne
      | cons d0 dt =>
          rw [List.cons_append]
          conv_lhs => unfold parseNodes
          simp only []
          rw [if_neg (hchars d0 (List.mem_cons_self d0 dt)).2]
          rw [← List.cons_append,
            takeUntil_append '<' (d0 :: dt) (plainPrintList true true cs' ++ rest)
              (fun a haa => (hchars a haa).2) hy]
          simp only []
          rw [parseNodes_inv fuel cs' rest hg' (noAdjacentTexts_tail _ _ hadj) hrest
            (by simp only [List.length_append, List.length_cons] at hlen ⊢; omega)]
          rfl
  | fuel + 1, .element k n p a ecs :: cs', rest, hg, hadj, hrest, hlen => by
      have hg2 : GoodNode (.element k n p a ecs) = true ∧ GoodNodeList cs' = true := by
        unfold GoodNodeList at hg
        simp only [Bool.and_eq_true] at hg
        exact hg
      obtain ⟨hgel, hg'⟩ := hg2
      have hcomp : goodName n = true ∧ goodAttrs a = true ∧ noAdjacentTexts ecs = true ∧
          GoodNodeList ecs = true := by
        unfold GoodNode at hgel
        simp only [Bool.and_eq_true] at hgel
        exact ⟨hgel.1.1.1.1, hgel.1.1.2, hgel.1.2, hgel.2⟩
      obtain ⟨hname, hattrs, hadjE, hecs⟩ := hcomp
      obtain ⟨th, ct, hchunk, hth, hnogt⟩ := chunk_facts k n p a hname hattrs
      have htc := tagNameOf_chars k n p hname
      have hX : plainPrintList true true (.element k n p a ecs :: cs') ++ rest =
          '<' :: ((th :: ct) ++ '>' :: (plainPrintList true true ecs ++
            ('<' :: '/' :: (tagNameOf true true k n p ++
              '>' :: (plainPrintList true true cs' ++ rest))))) := by
        rw [← hchunk]
        simp [plainPrintList, plainPrint_element_eq, List.append_assoc]
      rw [hX] at hlen ⊢
      simp only [List.length_append, List.length_cons] at hlen
      rw [parseNodes_open_step fuel th ct _ hth hnogt]
      rw [← hchunk, parseTagContent_inv k n p a hname hattrs]
      simp only []
      rw [parseNodes_inv fuel ecs ('<' :: '/' :: (tagNameOf true true k n p ++
          '>' :: (plainPrintList true true cs' ++ rest))) hecs hadjE (Or.inr ⟨_, rfl⟩)
        (by simp only [List.length_append, List.length_cons]; omega)]
      simp only []
      simp only [List.take_succ_cons, List.take_zero, List.drop_succ_cons, List.drop_zero]
      rw [takeUntil_append '>' (tagNameOf true true k n p) _
        (fun c hc => (htc c hc).2.1) (Or.inr ⟨_, rfl⟩)]
      simp only []
      simp only [List.take_succ_cons, List.take_zero, List.drop_succ_cons, List.drop_zero,
        if_true]
      rw [parseNodes_inv fuel cs' rest hg' (noAdjacentTexts_tail _ _ hadj) hrest
        (by simp only [List.length_append, List.length_cons]; omega)]
      rfl
  | fuel + 1, .fragment fcs :: cs', rest, hg, hadj, hrest, hlen => by
      simp [GoodNodeList, GoodNode] at hg

theorem walkDom_fragment_cons2 (d1 d2 : DomNode) (dr : List DomNode) :
    walkDom (.fragment (d1 :: d2 :: dr)) =
      match walkDomList (d1 :: d2 :: dr) with
      | .error e => .error e
      | .ok vs => .ok (.fragment vs) := by
  cases hw : walkDomList (d1 :: d2 :: dr) with
  | error e =>
      unfold walkDom
      simp only [bind, Except.bind]
      rw [hw]
  | ok vs =>
      unfold walkDom
      simp only [bind, Except.bind]
      rw [hw]

/-- C1 (amended): the no-selection round trip holds for every tree built
through the public constructors whose names are nonempty and drawn from the
admissible name characters, whose text nodes are nonempty and free of the
scanner tokens (in particular of spaces) and of the tag-opening character,
whose attributes have admissible duplicate-free keys and quote-free values,
whose sibling lists have no two adjacent text nodes, and whose root is an
element or a fragment with child count other than one: for such trees,
`parse(stringify(T, no selection, showType, showPriority))` returns exactly
`T` again.  The unrestricted claim is refuted by `c1_space_roundtrip_fails`. -/
theorem c1_roundtrip_amended (T : ViewNode) (h : GoodRoot T = true) :
    parse (stringify T none true true) [] false = .ok (.tree T) := by
  rw [stringify_eq_plainPrint]
  cases T with
  | text data => simp [GoodRoot] at h
  | element k n p a cs =>
      have hgn : GoodNode (.element k n p a cs) = true := h
      have hpn : parseNodes ((plainPrint true true (.element k n p a cs)).length + 1)
          (plainPrint true true (.element k n p a cs)) =
          some ([domOfView true true (.element k n p a cs)], []) := by
        have hstep := parseNodes_inv ((plainPrint true true (.element k n p a cs)).length + 1)
          [.element k n p a cs] [] (by simp [GoodNodeList, hgn])
          (by simp [noAdjacentTexts]) (Or.inl rfl) (by simp [plainPrintList])
        simpa [plainPrintList, domOfViewList] using hstep
      unfold parse
      simp only [bind, Except.bind]
      unfold toDom
      rw [hpn]
      simp only []
      rw [show walkDom (.fragment [domOfView true true (.element k n p a cs)]) =
          walkDom (domOfView true true (.element k n p a cs)) from rfl]
      rw [walkDom_domOfView _ hgn]
      simp only []
      rw [rangeParserParse_good _ h]
      rfl
  | fragment cs =>
      have hparts : cs.length ≠ 1 ∧ noAdjacentTexts cs = true ∧ GoodNodeList cs = true := by
        unfold GoodRoot at h
        simp only [Bool.and_eq_true, decide_eq_true_eq] at h
        exact ⟨h.1.1, h.1.2, h.2⟩
      obtain ⟨hlen1, hadj, hcs⟩ := hparts
      have hpn : parseNodes ((plainPrint true true (.fragment cs)).length + 1)
          (plainPrint true true (.fragment cs)) =
          some (domOfViewList true true cs, []) := by
        have hstep := parseNodes_inv ((plainPrint true true (.fragment cs)).length + 1)
          cs [] hcs hadj (Or.inl rfl) (by simp [plainPrint])
        simpa [plainPrint] using hstep
      unfold parse
      simp only [bind, Except.bind]
      unfold toDom
      rw [hpn]
      simp only []
      cases cs with
      | nil =>
          rw [show walkDom (.fragment (domOfViewList true true [])) =
              .ok (.fragment []) from rfl]
          simp only []
          rw [rangeParserParse_good _ h]
          rfl
      | cons c1 cs1 =>
          cases cs1 with
          | nil => simp at hlen1
          | cons c2 cs2 =>
              have hwdl : walkDomList (domOfViewList true true (c1 :: c2 :: cs2)) =
                  .ok (c1 :: c2 :: cs2) := walkDomList_domOfViewList _ hcs
              rw [show domOfViewList true true (c1 :: c2 :: cs2) =
                  domOfView true true c1 :: domOfView true true c2 ::
                    domOfViewList true true cs2 from rfl] at hwdl ⊢
              rw [walkDom_fragment_cons2, hwdl]
              simp only []
              rw [rangeParserParse_good _ h]
              rfl

/-- C1 counterexample: the tree `<p>foo bar</p>` is built through the public
constructors, yet its round trip fails with `MarkerPlacementError`: the
phase-1 scanner strips the space and records it as an interior marker
event. -/
theorem c1_space_roundtrip_fails :
    parse (stringify (mkElement "p".data [] [mkText "foo bar".data]) none true true) [] false =
      .error PErr.markerPlacement := by decide

/-- Witness: the amended C1 theorem applied to the concrete good tree
`<container:d k="v">ab<attribute:b:7>c</attribute:b:7></container:d>`. -/
theorem c1_roundtrip_amended_witness :
    GoodRoot (mkContainerElement "d".data [("k".data, "v".data)]
      [mkText "ab".data, mkAttributeElement "b".data (some 7) [] [mkText "c".data]]) = true ∧
    parse (stringify (mkContainerElement "d".data [("k".data, "v".data)]
      [mkText "ab".data, mkAttributeElement "b".data (some 7) [] [mkText "c".data]])
      none true true) [] false =
      .ok (.tree (mkContainerElement "d".data [("k".data, "v".data)]
        [mkText "ab".data, mkAttributeElement "b".data (some 7) [] [mkText "c".data]])) :=
  ⟨by decide, c1_roundtrip_amended _ (by decide)⟩
